import Mathlib

/-!
Vibe protocol: socket layer and HTTP stream transport.

A shallow embedding of `lib/server.js` (the socket built by `createSocket` on top of a
transport), of the response handlers of `lib/transport-http-stream-transport.js` and of the
transport of `lib/transport-http-longpoll-transport.js`.

Conventions of the embedding.

* JavaScript values that travel as `data: any` are the trees of `Value`; numbers are
  integers.  JavaScript numbers used as counters (`eventId`, timer handles, intervals)
  are natural numbers.
* `JSON.stringify` / `JSON.parse` belong to the platform, not to the repository: the socket
  is parameterised by a `Codec`.  `jsonCodec` is a concrete printer/reader that instantiates
  it; `jsonCodec_roundtrip` shows that it gives back every event whose data is `undefined`
  or has no `undefined` inside.
* A socket is a record of the variables captured by the closures of `createSocket`
  (`eventId`, `callbacks`, `heartbeatTimer`, one `latch` per reply-requiring inbound event)
  together with the pending timers of the event loop and a `trace`: the list, in execution
  order, of everything the socket does to the outside (`transport.send`, `transport.close`,
  calls of `self.emit`, calls of stored callbacks, timer operations), of the stores into
  `callbacks` and of the exceptions thrown.
* Application listeners and callbacks are assumed not to throw, and the application is
  assumed to listen to `error`; what listeners do in turn (calling `send`, `close`, a
  controller) is a further `Input`.
* Chunks of a stream response are given by their text.  A text is a sequence of characters:
  the UTF-16 code units of JavaScript are not modelled.
* The long-polling transport is a record of `self.id`, the variable `req` and the requests
  made, with a trace of its own; the events of requests and responses are inputs.  The base
  transport is not part of the sources: its `close` is recorded as a call.
-/

namespace Vibe

/-! ## JavaScript values -/

mutual
/-- A JavaScript value as it is passed to `send`, carried by an event or read from one. -/
inductive Value where
  | undefined
  | null
  | bool (b : Bool)
  | num (n : Int)
  | str (s : String)
  | arr (xs : Elements)
  | obj (ms : Members)
  deriving DecidableEq
/-- The elements of an array value. -/
inductive Elements where
  | nil
  | cons (v : Value) (rest : Elements)
  deriving DecidableEq
/-- The own properties of an object value, in insertion order. -/
inductive Members where
  | nil
  | cons (key : String) (v : Value) (rest : Members)
  deriving DecidableEq
end

/-- Own-property lookup in an object. -/
def Members.find (key : String) : Members → Option Value
  | .nil => none
  | .cons k v rest => if k = key then some v else Members.find key rest

/-- Property read `v.key` for the keys the socket reads (`id`, `data`, `exception`): `none`
(a `TypeError`) on `undefined` and `null`, the own property of an object, `undefined`
otherwise. -/
def Value.prop (key : String) : Value → Option Value
  | .undefined => none
  | .null => none
  | .obj ms => some ((Members.find key ms).getD .undefined)
  | _ => some .undefined

/-- JavaScript truthiness, as tested by `if (x)`, `!x` and `x ? a : b`. -/
def Value.truthy : Value → Bool
  | .undefined => false
  | .null => false
  | .bool b => b
  | .num n => n ≠ 0
  | .str s => s ≠ ""
  | .arr _ => true
  | .obj _ => true

mutual
/-- String conversion of a value used as a property key (`key in object`, `object[key]`). -/
def Value.toKey : Value → String
  | .undefined => "undefined"
  | .null => "null"
  | .bool b => if b then "true" else "false"
  | .num n => toString n
  | .str s => s
  | .arr xs => Elements.join false xs
  | .obj _ => "[object Object]"
/-- The text of `Array.prototype.join(",")`; `sep` tells whether an element came before. -/
def Elements.join (sep : Bool) : Elements → String
  | .nil => ""
  | .cons .undefined xs => (if sep then "," else "") ++ Elements.join true xs
  | .cons .null xs => (if sep then "," else "") ++ Elements.join true xs
  | .cons x xs => (if sep then "," else "") ++ Value.toKey x ++ Elements.join true xs
end

/-! ## Events and the JSON codec -/

/-- An event object `{id, type, data, reply}`. -/
structure Event where
  id : String
  type : String
  data : Value
  reply : Bool
  deriving DecidableEq

/-- The platform functions `JSON.stringify` (on event objects) and `JSON.parse` (followed
by the reads of `id`, `type`, `data`, `reply`).  `parse` is `none` where `JSON.parse`
throws; a text that is not an event object with strings for `id` and `type` is outside the
data model and is treated alike. -/
structure Codec where
  stringify : Event → String
  parse : String → Option Event

/-! ## The socket of `lib/server.js` -/

/-- A handle on a function supplied by the application. -/
abbrev Fn := Nat

/-- The object `{resolved: resolved, rejected: rejected}` kept in `callbacks`; `none` is
`undefined` or `null`. -/
structure Callbacks where
  resolved : Option Fn
  rejected : Option Fn
  deriving DecidableEq

/-- An argument handed to listeners by `self.emit`. -/
inductive Arg where
  | value (v : Value)
  | controller (latch : Nat)
  | error (message : String)
  deriving DecidableEq

/-- What the socket does, in execution order: `emit` is the call `self.emit(name, args)`,
`store` the assignment `callbacks[id] = cbs`, `call` the call of a stored callback found under
`id`, `throw` an exception that ends the running handler. -/
inductive Effect where
  | transportSend (payload : String)
  | transportClose
  | emit (name : String) (args : List Arg)
  | store (id : String) (cbs : Callbacks)
  | call (id : String) (fn : Fn) (arg : Value)
  | setTimeout (timer : Nat) (ms : Nat)
  | clearTimeout (timer : Nat)
  | throw (error : String)
  deriving DecidableEq

/-- The `options` object of the server. -/
structure Options where
  heartbeat : Nat
  _heartbeat : Nat
  deriving DecidableEq

/-- The closure state of one reply-requiring inbound event: the event and its `latch`. -/
structure Latch where
  event : Event
  latch : Bool
  deriving DecidableEq

/-- The state of a socket: the variables of `createSocket`, the timers of the event loop
that are pending, the event objects built by `send` so far and the trace. -/
structure Socket where
  options : Options
  eventId : Nat
  callbacks : List (String × Callbacks)
  heartbeatTimer : Nat
  timers : List Nat
  nextTimer : Nat
  latches : List Latch
  sent : List Event
  trace : List Effect
  deriving DecidableEq

/-- The default `options` of a server. -/
def defaultOptions : Options := { heartbeat := 20000, _heartbeat := 5000 }

/-- `self.setHeartbeat`. -/
def setHeartbeat (o : Options) (heartbeat : Nat) : Options := { o with heartbeat := heartbeat }

/-- `self.set_heartbeat`. -/
def set_heartbeat (o : Options) (_heartbeat : Nat) : Options :=
  { o with _heartbeat := _heartbeat }

/-- The text of `url.format({query: {heartbeat: h, _heartbeat: t}})` for integer values. -/
def handshake (o : Options) : String :=
  "?heartbeat=" ++ toString o.heartbeat ++ "&_heartbeat=" ++ toString o._heartbeat

/-- Appends an effect to the trace. -/
def Socket.log (s : Socket) (e : Effect) : Socket := { s with trace := s.trace ++ [e] }

/-- `self.send(type, data, resolved, rejected)`. -/
def send (codec : Codec) (s : Socket) (type : String) (data : Value)
    (resolved rejected : Option Fn) : Socket :=
  let event : Event :=
    { id := toString s.eventId, type := type, data := data,
      reply := resolved.isSome || rejected.isSome }
  let s := { s with eventId := s.eventId + 1, sent := s.sent ++ [event] }
  let s :=
    if event.reply then
      ({ s with callbacks :=
          (event.id, { resolved := resolved, rejected := rejected }) ::
            s.callbacks.filter (fun p => p.1 ≠ event.id) }).log
        (.store event.id { resolved := resolved, rejected := rejected })
    else s
  s.log (.transportSend (codec.stringify event))

/-- `self.close()`. -/
def close (s : Socket) : Socket := s.log .transportClose

/-- `clearTimeout(heartbeatTimer)`. -/
def clearHeartbeatTimer (s : Socket) : Socket :=
  ({ s with timers := s.timers.filter (fun t => t ≠ s.heartbeatTimer) }).log
    (.clearTimeout s.heartbeatTimer)

/-- `setHeartbeatTimer()`. -/
def setHeartbeatTimer (s : Socket) : Socket :=
  ({ s with heartbeatTimer := s.nextTimer, timers := s.timers ++ [s.nextTimer],
            nextTimer := s.nextTimer + 1 }).log
    (.setTimeout s.nextTimer s.options.heartbeat)

/-- The listener of `reply` installed by `createSocket`.  `reply.id in callbacks` also holds
for the properties inherited from `Object.prototype`; none of them has a `resolved` or
`rejected` property and `delete` leaves them alone, so that only own properties matter. -/
def onReply (s : Socket) (reply : Value) : Socket :=
  match reply.prop "id" with
  | none => s.log (.throw "TypeError")
  | some id =>
    match s.callbacks.lookup id.toKey with
    | none => s
    | some cbs =>
      let fn :=
        if ((reply.prop "exception").getD .undefined).truthy then cbs.rejected
        else cbs.resolved
      let s :=
        match fn with
        | some f => s.log (.call id.toKey f ((reply.prop "data").getD .undefined))
        | none => s
      { s with callbacks := s.callbacks.filter (fun p => p.1 ≠ id.toKey) }

/-- The listener of `heartbeat` installed by `createSocket`. -/
def onHeartbeat (codec : Codec) (s : Socket) : Socket :=
  send codec (setHeartbeatTimer (clearHeartbeatTimer s)) "heartbeat" .undefined none none

/-- The first argument of an emit, as the listener of `reply` receives it. -/
def firstValue : List Arg → Value
  | .value v :: _ => v
  | _ => .undefined

/-- `self.emit(name, args...)`: the call is recorded, then the listener that `createSocket`
installed for `name` runs; the listeners of the application come after it and are not
reached when it throws. -/
def emit (codec : Codec) (s : Socket) (name : String) (args : List Arg) : Socket :=
  let s := s.log (.emit name args)
  if name = "reply" then onReply s (firstValue args)
  else if name = "heartbeat" then onHeartbeat codec s
  else if name = "close" then clearHeartbeatTimer s
  else s

/-- The listener of the transport's `text`. -/
def onText (codec : Codec) (s : Socket) (text : String) : Socket :=
  match codec.parse text with
  | none => s.log (.throw "SyntaxError")
  | some event =>
    if !event.reply then
      emit codec s event.type [.value event.data]
    else
      emit codec { s with latches := s.latches ++ [{ event := event, latch := false }] }
        event.type [.value event.data, .controller s.latches.length]

/-- The object `{id: event.id, data: value, exception: !success}`. -/
def envelope (id : String) (value : Value) (exception : Bool) : Value :=
  .obj (.cons "id" (.str id) (.cons "data" value (.cons "exception" (.bool exception) .nil)))

/-- A call `reply(success)(value)` of a controller of the latch numbered `i`. -/
def controller (codec : Codec) (s : Socket) (i : Nat) (success : Bool) (value : Value) :
    Socket :=
  match s.latches[i]? with
  | none => s
  | some l =>
    if !l.latch then
      send codec { s with latches := s.latches.set i { l with latch := true } }
        "reply" (envelope l.event.id value (!success)) none none
    else s

/-- The listener of the transport's `error`. -/
def onTransportError (codec : Codec) (s : Socket) (error : String) : Socket :=
  emit codec s "error" [.error error]

/-- The listener of the transport's `close`. -/
def onTransportClose (codec : Codec) (s : Socket) : Socket :=
  emit codec s "close" []

/-- The function given to `setTimeout` by `setHeartbeatTimer`, run when `timer` is due; a
timer that is not pending does not run. -/
def onTimeout (codec : Codec) (s : Socket) (timer : Nat) : Socket :=
  if timer ∈ s.timers then
    close (emit codec { s with timers := s.timers.filter (fun t => t ≠ timer) }
      "error" [.error "heartbeat"])
  else s

/-- `createSocket(transport, options)`. -/
def createSocket (options : Options) : Socket :=
  let s : Socket :=
    { options := options, eventId := 0, callbacks := [], heartbeatTimer := 0, timers := [],
      nextTimer := 0, latches := [], sent := [], trace := [] }
  (setHeartbeatTimer s).log (.transportSend (handshake options))

/-- What can happen to a socket: the notifications of its transport, a timer that is due,
the calls of the application (`send`, `close`, the controllers of a latch) and those of
the server's `setHeartbeat` and `set_heartbeat` on the shared `options`. -/
inductive Input where
  | text (text : String)
  | error (error : String)
  | close
  | timeout (timer : Nat)
  | send (type : String) (data : Value) (resolved rejected : Option Fn)
  | closeCall
  | resolve (latch : Nat) (value : Value)
  | reject (latch : Nat) (value : Value)
  | setHeartbeat (heartbeat : Nat)
  | set_heartbeat (_heartbeat : Nat)
  deriving DecidableEq

/-- The socket after one input. -/
def step (codec : Codec) (s : Socket) : Input → Socket
  | .text t => onText codec s t
  | .error e => onTransportError codec s e
  | .close => onTransportClose codec s
  | .timeout t => onTimeout codec s t
  | .send type data resolved rejected => send codec s type data resolved rejected
  | .closeCall => close s
  | .resolve i v => controller codec s i true v
  | .reject i v => controller codec s i false v
  | .setHeartbeat h => { s with options := setHeartbeat s.options h }
  | .set_heartbeat t => { s with options := set_heartbeat s.options t }

/-- The socket after a sequence of inputs. -/
def run (codec : Codec) (s : Socket) (inputs : List Input) : Socket :=
  inputs.foldl (step codec) s

/-- The payloads given to `transport.send`, in order. -/
def writes : List Effect → List String
  | [] => []
  | .transportSend p :: rest => p :: writes rest
  | _ :: rest => writes rest

/-- The calls of `self.emit`, in order. -/
def emits : List Effect → List (String × List Arg)
  | [] => []
  | .emit name args :: rest => (name, args) :: emits rest
  | _ :: rest => emits rest

/-- The calls of the callbacks stored under `id`, in order. -/
def calls (id : String) : List Effect → List (Fn × Value)
  | [] => []
  | .call i fn arg :: rest => if i = id then (fn, arg) :: calls id rest else calls id rest
  | _ :: rest => calls id rest

/-- The timers armed, in order. -/
def armed : List Effect → List Nat
  | [] => []
  | .setTimeout timer _ :: rest => timer :: armed rest
  | _ :: rest => armed rest

/-! ## The response handlers of `lib/transport-http-stream-transport.js` -/

/-- The characters matched by `\s` in a regular expression. -/
def isSpace (c : Char) : Bool :=
  c.toNat ∈ [9, 10, 11, 12, 13, 32, 160, 5760, 8232, 8233, 8239, 8287, 12288, 65279] ||
    (8192 ≤ c.toNat && c.toNat ≤ 8202)

/-- `chunk.replace(/^\s+/, "")`. -/
def stripLeft (chunk : String) : String := ⟨chunk.data.dropWhile isSpace⟩

/-- The segments of `split("\n\n")`, on characters: separators are found from the left
and do not overlap. -/
def splitNN : List Char → List (List Char)
  | [] => [[]]
  | [c] => [[c]]
  | c :: d :: rest =>
    if c = '\n' ∧ d = '\n' then [] :: splitNN rest
    else
      match splitNN (d :: rest) with
      | seg :: segs => (c :: seg) :: segs
      | [] => [[c]]

/-- `text.split("\n\n")`. -/
def split (text : String) : List String := (splitNN text.data).map String.mk

/-- `line.substring("data: ".length)`. -/
def unwrap (line : String) : String := ⟨line.data.drop "data: ".length⟩

/-- A notification emitted by the stream transport. -/
inductive Notification where
  | open
  | text (data : String)
  | error (error : String)
  | close
  deriving DecidableEq

/-- The variables of one response of the stream transport (`handshaked`, `buffer`), the
transport's `id`, the arguments `onmessage` was called with and the notifications emitted,
both in order. -/
structure Response where
  handshaked : Bool
  buffer : String
  id : Option String
  messages : List String
  emitted : List Notification
  deriving DecidableEq

/-- The state with which the `response` listener starts. -/
def Response.init : Response :=
  { handshaked := false, buffer := "", id := none, messages := [], emitted := [] }

/-- `onmessage(data)`; `queryId` is `url.parse(data, true).query.id`. -/
def onmessage (queryId : String → Option String) (r : Response) (data : String) : Response :=
  let r := { r with messages := r.messages ++ [data] }
  if !r.handshaked then
    { r with handshaked := true, id := queryId data, emitted := r.emitted ++ [.open] }
  else
    { r with emitted := r.emitted ++ [.text data] }

/-- The body of `forEach(function(line, i, lines) ...)` from index `i` on, `n` being
`lines.length`. -/
def forEachLine (queryId : String → Option String) (n : Nat) :
    Nat → List String → Response → Response
  | _, [], r => r
  | i, line :: rest, r =>
    forEachLine queryId n (i + 1) rest
      (if i < n - 1 then onmessage queryId r (unwrap line) else { r with buffer := line })

/-- The listener of the response's `data`; a chunk is given by its text. -/
def onData (queryId : String → Option String) (r : Response) (chunk : String) : Response :=
  let chunk := stripLeft chunk
  if chunk = "" then r
  else
    let lines := split (r.buffer ++ chunk)
    forEachLine queryId lines.length 0 lines r

/-- The listener of the response's `end`. -/
def onEnd (r : Response) : Response := { r with emitted := r.emitted ++ [.close] }

/-- The chunks of a response fed in order to the `data` listener. -/
def feed (queryId : String → Option String) (r : Response) (chunks : List String) :
    Response :=
  chunks.foldl (onData queryId) r

/-- Emits a notification of the stream transport. -/
def Response.notify (r : Response) (n : Notification) : Response :=
  { r with emitted := r.emitted ++ [n] }

/-- The record handler called on each segment in turn. -/
def deliver (queryId : String → Option String) (r : Response) (segs : List (List Char)) :
    Response :=
  segs.foldl (fun r seg => onmessage queryId r (unwrap ⟨seg⟩)) r

/-- The response after the `data` listener has gone through the text `x`: the record handler
has been called on every segment but the last, which is the buffer. -/
def after (queryId : String → Option String) (r : Response) (x : List Char) : Response :=
  { deliver queryId r (splitNN x).dropLast with buffer := ⟨(splitNN x).getLastD []⟩ }

/-- A text without the separator `"\n\n"` in it. -/
def NoSeparator (seg : List Char) : Prop := ¬ ['\n', '\n'] <:+: seg

/-! ## The long-polling transport of `lib/transport-http-longpoll-transport.js` -/

namespace LongPoll

/-- The bytes of a `Buffer`. -/
abbrev Bytes := List Nat

/-- The platform and library functions the transport calls: `url.parse(body, true).query.id`,
`encodeURIComponent` (on `self.id`, which may be `undefined`) and the UTF-8 decoding of
`Buffer.toString`. -/
structure Platform where
  queryId : String → Option String
  encodeURIComponent : Option String → String
  utf8 : Bytes → String

/-- An error handed to the listeners of `error`: `new Error("protocol")`, or the error of a
request or response passed on by `onerror`. -/
inductive Failure where
  | protocol
  | relayed (error : String)
  deriving DecidableEq

/-- A notification emitted by the transport. -/
inductive Notification where
  | open
  | text (data : String)
  | binary (data : Bytes)
  | error (error : Failure)
  | close
  deriving DecidableEq

/-- What the transport does, in execution order: `get` is `http.get(url)`, which makes the
request numbered `request`; `emit` is `self.emit`; `close` is the call `self.close()` of the
base transport; `abort` is `req.abort()`; `throw` an exception that ends the handler. -/
inductive Effect where
  | get (url : String) (request : Nat)
  | emit (n : Notification)
  | close
  | abort (request : Nat)
  | throw (error : String)
  deriving DecidableEq

/-- The two kinds of request: the one made by `connect`, those made by `poll`. -/
inductive Kind where
  | open
  | poll
  deriving DecidableEq

/-- The response of a request: its `content-type` header if any, the `body` aggregated by the
`data` listener of `connect`, the `chunks` collected by that of `poll`, and whether `end`
has been handled. -/
structure Res where
  contentType : Option String
  body : String
  chunks : List Bytes
  ended : Bool
  deriving DecidableEq

/-- A request: its kind, whether `abort` has replaced its `error` listeners, and its
response once there is one. -/
structure Req where
  kind : Kind
  aborted : Bool
  res : Option Res
  deriving DecidableEq

/-- The state of a transport: `self.id`, the variable `req`, the requests made so far (the
request numbered `n` is the entry `n`) and the trace. -/
structure Transport where
  id : Option String
  req : Option Nat
  requests : List Req
  trace : List Effect
  deriving DecidableEq

/-- A transport on which `connect` has not been called. -/
def Transport.init : Transport := { id := none, req := none, requests := [], trace := [] }

/-- Appends an effect to the trace. -/
def Transport.log (t : Transport) (e : Effect) : Transport := { t with trace := t.trace ++ [e] }

/-- `onerror(error)`. -/
def onerror (t : Transport) (error : String) : Transport :=
  t.log (.emit (.error (.relayed error)))

/-- `onclose()`. -/
def onclose (t : Transport) : Transport := t.log (.emit .close)

/-- `req = http.get(url).on("error", onerror).on("close", onclose).on("response", ...)`. -/
def get (t : Transport) (url : String) (kind : Kind) : Transport :=
  ({ t with req := some t.requests.length,
            requests := t.requests ++ [({ kind := kind, aborted := false, res := none } : Req)] } :
      Transport).log
    (.get url t.requests.length)

/-- `self.connect()`. -/
def connect (uri : String) (t : Transport) : Transport := get t (uri ++ "&when=open") .open

/-- `poll()`. -/
def poll (p : Platform) (uri : String) (t : Transport) : Transport :=
  get t (uri ++ "&when=poll&id=" ++ p.encodeURIComponent t.id) .poll

/-- `String.prototype.toLowerCase`, on the letters `A` to `Z`.  No other character
lower-cases to a letter of the header values compared with, so that the comparisons of
`dispatch` come out the same. -/
def toLowerCase (s : String) : String := ⟨s.data.map Char.toLower⟩

/-- The `content-type` headers allowed for a text message. -/
def textTypes : List String :=
  ["text/plain; charset=utf-8", "text/plain; charset=utf8", "text/plain;charset=utf-8",
   "text/plain;charset=utf8"]

/-- The `switch` on `(res.headers["content-type"] || "").toLowerCase()`. -/
def dispatch (p : Platform) (t : Transport) (contentType : Option String) (body : Bytes) :
    Transport :=
  if toLowerCase (contentType.getD "") ∈ textTypes then t.log (.emit (.text (p.utf8 body)))
  else if toLowerCase (contentType.getD "") = "application/octet-stream" then
    t.log (.emit (.binary body))
  else (t.log (.emit (.error .protocol))).log .close

/-- Replaces the request numbered `r`. -/
def Transport.setReq (t : Transport) (r : Nat) (q : Req) : Transport :=
  { t with requests := t.requests.set r q }

/-- The listener of `response` of the request `r`: the response starts with nothing
received. -/
def onResponse (t : Transport) (r : Nat) (contentType : Option String) : Transport :=
  match t.requests[r]? with
  | some q =>
    match q.res with
    | none =>
      t.setReq r { q with res := some { contentType := contentType, body := "", chunks := [],
                                        ended := false } }
    | some _ => t
  | none => t

/-- The listener of `data` of the response of the request `r`. -/
def onData (p : Platform) (t : Transport) (r : Nat) (chunk : Bytes) : Transport :=
  match t.requests[r]? with
  | some q =>
    match q.res with
    | some res =>
      if res.ended then t
      else
        match q.kind with
        | .open => t.setReq r { q with res := some { res with body := res.body ++ p.utf8 chunk } }
        | .poll => t.setReq r { q with res := some { res with chunks := res.chunks ++ [chunk] } }
    | none => t
  | none => t

/-- The listener of `end` of the response of the request `r`. -/
def onEnd (p : Platform) (uri : String) (t : Transport) (r : Nat) : Transport :=
  match t.requests[r]? with
  | some q =>
    match q.res with
    | some res =>
      if res.ended then t
      else
        let t := t.setReq r { q with res := some { res with ended := true } }
        match q.kind with
        | .open =>
          (poll p uri { t with id := p.queryId res.body }).log (.emit .open)
        | .poll =>
          if res.chunks.length ≠ 0 then
            dispatch p (poll p uri t) res.contentType res.chunks.flatten
          else t.log (.emit .close)
    | none => t
  | none => t

/-- The listener of `error` of the response of the request `r`. -/
def onResError (t : Transport) (r : Nat) (error : String) : Transport :=
  match t.requests[r]? with
  | some q =>
    match q.res with
    | some _ => onerror t error
    | none => t
  | none => t

/-- The listeners of `error` of the request `r`: `onerror`, or after `abort` the function
that emits `close`. -/
def onReqError (t : Transport) (r : Nat) (error : String) : Transport :=
  match t.requests[r]? with
  | some q => if q.aborted then t.log (.emit .close) else onerror t error
  | none => t

/-- The listener of `close` of the request `r`. -/
def onReqClose (t : Transport) (r : Nat) : Transport :=
  match t.requests[r]? with
  | some _ => onclose t
  | none => t

/-- `self.abort()`; a `TypeError` when no request was made yet. -/
def abort (t : Transport) : Transport :=
  match t.req with
  | none => t.log (.throw "TypeError")
  | some r =>
    match t.requests[r]? with
    | some q => (t.setReq r { q with aborted := true }).log (.abort r)
    | none => t

/-- What can happen to a transport: the calls of `connect` and `abort`, and the events of
the requests and of their responses. -/
inductive Input where
  | connect
  | abort
  | response (request : Nat) (contentType : Option String)
  | data (request : Nat) (chunk : Bytes)
  | end (request : Nat)
  | resError (request : Nat) (error : String)
  | reqError (request : Nat) (error : String)
  | reqClose (request : Nat)
  deriving DecidableEq

/-- The transport after one input. -/
def step (p : Platform) (uri : String) (t : Transport) : Input → Transport
  | .connect => connect uri t
  | .abort => abort t
  | .response r contentType => onResponse t r contentType
  | .data r chunk => onData p t r chunk
  | .end r => onEnd p uri t r
  | .resError r e => onResError t r e
  | .reqError r e => onReqError t r e
  | .reqClose r => onReqClose t r

/-- The transport after a sequence of inputs. -/
def run (p : Platform) (uri : String) (t : Transport) (inputs : List Input) : Transport :=
  inputs.foldl (step p uri) t

/-- The notifications emitted, in order. -/
def emitted : List Effect → List Notification
  | [] => []
  | .emit n :: rest => n :: emitted rest
  | _ :: rest => emitted rest

/-- The notifications that carry what a poll response delivered: `text`, `binary` and the
protocol error. -/
def Notification.payload : Notification → Bool
  | .text _ => true
  | .binary _ => true
  | .error .protocol => true
  | _ => false

/-- The url of a poll request of the transport at `uri`. -/
def isPollUrl (uri url : String) : Bool :=
  decide ((uri ++ "&when=poll&id=").data <+: url.data)

/-- Whether every payload notification of a trace comes right after the making of a poll
request; `polled` tells whether the effect just before was one. -/
def noGap (uri : String) (polled : Bool) : List Effect → Bool
  | [] => true
  | .get url _ :: rest => noGap uri (isPollUrl uri url) rest
  | .emit n :: rest => (!n.payload || polled) && noGap uri false rest
  | _ :: rest => noGap uri false rest

/-- A platform for witnesses: handshakes of the form `?id=<id>`, texts of ASCII characters,
ids that need no escape. -/
def samplePlatform : Platform :=
  { queryId := fun body => some ⟨body.data.drop 4⟩,
    encodeURIComponent := fun id => id.getD "undefined",
    utf8 := fun bytes => ⟨bytes.map Char.ofNat⟩ }

end LongPoll

/-! ## A JSON printer and reader, to instantiate `Codec` -/

/-- The hexadecimal digit of a number below 16. -/
def hexDigit (n : Nat) : Char := if n < 10 then Char.ofNat (48 + n) else Char.ofNat (87 + n)

/-- The value of a hexadecimal digit. -/
def hexValue (c : Char) : Option Nat :=
  if '0' ≤ c ∧ c ≤ '9' then some (c.toNat - 48)
  else if 'a' ≤ c ∧ c ≤ 'f' then some (c.toNat - 87)
  else if 'A' ≤ c ∧ c ≤ 'F' then some (c.toNat - 55)
  else none

/-- The characters of a JSON string literal, without the quotes. -/
def quoteChars : List Char → List Char
  | [] => []
  | c :: cs =>
    (if c = '"' then ['\\', '"']
     else if c = '\\' then ['\\', '\\']
     else if c = '\n' then ['\\', 'n']
     else if c = '\r' then ['\\', 'r']
     else if c = '\t' then ['\\', 't']
     else if c = Char.ofNat 8 then ['\\', 'b']
     else if c = Char.ofNat 12 then ['\\', 'f']
     else if c.toNat < 32 then ['\\', 'u', '0', '0', hexDigit (c.toNat / 16), hexDigit (c.toNat % 16)]
     else [c]) ++ quoteChars cs

/-- A JSON string literal. -/
def quote (s : String) : List Char := '"' :: quoteChars s.data ++ ['"']

mutual
/-- The JSON text of a value; `undefined` prints as `null`, as it does inside an array. -/
def Value.json : Value → List Char
  | .undefined => "null".data
  | .null => "null".data
  | .bool b => if b then "true".data else "false".data
  | .num n => (toString n).data
  | .str s => quote s
  | .arr xs => '[' :: Elements.json false xs ++ [']']
  | .obj ms => '{' :: Members.json false ms ++ ['}']
/-- The JSON text of the elements of an array. -/
def Elements.json (sep : Bool) : Elements → List Char
  | .nil => []
  | .cons x xs => (if sep then [','] else []) ++ Value.json x ++ Elements.json true xs
/-- The JSON text of the properties of an object; a property that is `undefined` is left
out. -/
def Members.json (sep : Bool) : Members → List Char
  | .nil => []
  | .cons _ .undefined ms => Members.json sep ms
  | .cons k x ms =>
    (if sep then [','] else []) ++ quote k ++ [':'] ++ Value.json x ++ Members.json true ms
end

/-- The object `{id: ..., type: ..., data: ..., reply: ...}` of an event. -/
def Event.toValue (e : Event) : Value :=
  .obj (.cons "id" (.str e.id) (.cons "type" (.str e.type) (.cons "data" e.data
    (.cons "reply" (.bool e.reply) .nil))))

/-- `JSON.stringify(event)`. -/
def jsonStringify (e : Event) : String := ⟨e.toValue.json⟩

/-- Reads a string literal after its opening quote; `acc` holds the characters read, last
first. -/
def readString : List Char → List Char → Option (String × List Char)
  | [], _ => none
  | c :: cs, acc =>
    if c = '"' then some (⟨acc.reverse⟩, cs)
    else if c = '\\' then
      match cs with
      | 'u' :: a :: b :: c :: d :: rest =>
        match hexValue a, hexValue b, hexValue c, hexValue d with
        | some a, some b, some c, some d =>
          readString rest (Char.ofNat (((a * 16 + b) * 16 + c) * 16 + d) :: acc)
        | _, _, _, _ => none
      | e :: rest =>
        if e = 'n' then readString rest ('\n' :: acc)
        else if e = 'r' then readString rest ('\r' :: acc)
        else if e = 't' then readString rest ('\t' :: acc)
        else if e = 'b' then readString rest (Char.ofNat 8 :: acc)
        else if e = 'f' then readString rest (Char.ofNat 12 :: acc)
        else if e = '"' ∨ e = '\\' ∨ e = '/' then readString rest (e :: acc)
        else none
      | [] => none
    else readString cs (c :: acc)

/-- Reads the decimal digits at the head of a text. -/
def readDigits : List Char → Nat → Nat × List Char
  | [], n => (n, [])
  | c :: cs, n => if c.isDigit then readDigits cs (n * 10 + (c.toNat - 48)) else (n, c :: cs)

mutual
/-- Reads a JSON value at the head of a text. -/
def readValue : Nat → List Char → Option (Value × List Char)
  | 0, _ => none
  | fuel + 1, cs =>
    match cs with
    | [] => none
    | c :: rest =>
      if c = '"' then (readString rest []).map (fun p => (.str p.1, p.2))
      else if c = '[' then
        if rest.head? = some ']' then some (.arr .nil, rest.tail)
        else (readElements fuel rest).map (fun p => (.arr p.1, p.2))
      else if c = '{' then
        if rest.head? = some '}' then some (.obj .nil, rest.tail)
        else (readMembers fuel rest).map (fun p => (.obj p.1, p.2))
      else if c = '-' then
        match rest with
        | d :: _ =>
          if d.isDigit then
            let p := readDigits rest 0
            some (.num (-(p.1 : Int)), p.2)
          else none
        | [] => none
      else if c.isDigit then
        let p := readDigits (c :: rest) 0
        some (.num p.1, p.2)
      else
        match c :: rest with
        | 'n' :: 'u' :: 'l' :: 'l' :: rest => some (.null, rest)
        | 't' :: 'r' :: 'u' :: 'e' :: rest => some (.bool true, rest)
        | 'f' :: 'a' :: 'l' :: 's' :: 'e' :: rest => some (.bool false, rest)
        | _ => none
/-- Reads the elements of an array up to its closing bracket. -/
def readElements : Nat → List Char → Option (Elements × List Char)
  | 0, _ => none
  | fuel + 1, cs =>
    match readValue fuel cs with
    | some (v, ',' :: rest) => (readElements fuel rest).map (fun p => (.cons v p.1, p.2))
    | some (v, ']' :: rest) => some (.cons v .nil, rest)
    | _ => none
/-- Reads the properties of an object up to its closing brace. -/
def readMembers : Nat → List Char → Option (Members × List Char)
  | 0, _ => none
  | fuel + 1, cs =>
    match cs with
    | '"' :: rest =>
      match readString rest [] with
      | some (k, ':' :: rest) =>
        match readValue fuel rest with
        | some (v, ',' :: rest) => (readMembers fuel rest).map (fun p => (.cons k v p.1, p.2))
        | some (v, '}' :: rest) => some (.cons k v .nil, rest)
        | _ => none
      | _ => none
    | _ => none
end

/-- The reads of `id`, `type`, `data` and `reply` on a parsed event object. -/
def Event.ofValue : Value → Option Event
  | .obj ms =>
    match Members.find "id" ms, Members.find "type" ms with
    | some (.str id), some (.str type) =>
      some { id := id, type := type, data := (Members.find "data" ms).getD .undefined,
             reply := ((Members.find "reply" ms).getD .undefined).truthy }
    | _, _ => none
  | _ => none

/-- `JSON.parse(text)` on texts without insignificant white space, read as an event. -/
def jsonParse (text : String) : Option Event :=
  match readValue (text.data.length + 1) text.data with
  | some (v, []) => Event.ofValue v
  | _ => none

/-- The codec of the platform. -/
def jsonCodec : Codec := { stringify := jsonStringify, parse := jsonParse }

mutual
/-- A value that JSON carries as it is: no `undefined` in it. -/
def Value.plain : Value → Bool
  | .undefined => false
  | .arr xs => Elements.plain xs
  | .obj ms => Members.plain ms
  | _ => true
/-- Elements that are all plain. -/
def Elements.plain : Elements → Bool
  | .nil => true
  | .cons x xs => Value.plain x && Elements.plain xs
/-- Properties whose values are all plain. -/
def Members.plain : Members → Bool
  | .nil => true
  | .cons _ x ms => Value.plain x && Members.plain ms
end

/-- A text that does not go on with a decimal digit. -/
def NoDigitHead (rest : List Char) : Prop := ∀ c ∈ rest.head?, c.isDigit = false

/-! ## Sample texts -/

/-- An inbound event `test` with id `5` that requires a reply. -/
def sampleRequest : String :=
  "\x7b\"id\":\"5\",\"type\":\"test\",\"data\":1,\"reply\":true\x7d"

/-- An inbound reply to the event `0`: rejected with `3`. -/
def sampleRejection : String :=
  "\x7b\"id\":\"9\",\"type\":\"reply\",\"data\":\x7b\"id\":\"0\",\"data\":3,\"exception\":true\x7d,\"reply\":false\x7d"

/-- An inbound reply to the event `0`: resolved with `3`. -/
def sampleResolution : String :=
  "\x7b\"id\":\"9\",\"type\":\"reply\",\"data\":\x7b\"id\":\"0\",\"data\":3,\"exception\":false\x7d,\"reply\":false\x7d"

/-- An inbound heartbeat, with id `3`. -/
def sampleHeartbeat : String :=
  "\x7b\"id\":\"3\",\"type\":\"heartbeat\",\"reply\":false\x7d"

/-- The heartbeat a socket writes as its first event. -/
def sampleAcknowledgement : String :=
  "\x7b\"id\":\"0\",\"type\":\"heartbeat\",\"reply\":false\x7d"

/-- An invocation of a controller of the latch numbered `latch`: `true` stands for
`resolve`, `false` for `reject`. -/
def invocation (latch : Nat) (c : Bool × Value) : Input :=
  if c.1 then .resolve latch c.2 else .reject latch c.2

/-- The number written by decimal digits, continuing from `acc`. -/
def digitsValue (acc : Nat) (cs : List Char) : Nat :=
  cs.foldl (fun a c => a * 10 + (c.toNat - 48)) acc

/-- The wire invariant of a socket whose handshake is `h`: what was written is the handshake
followed by the JSON text of the events built by `send`, and the ids of these events are
the decimal texts of `0`, `1`, ... up to the counter `eventId`. -/
def Wire (codec : Codec) (h : String) (s : Socket) : Prop :=
  writes s.trace = h :: s.sent.map codec.stringify ∧
    s.sent.map (fun e => e.id) = (List.range s.eventId).map toString

/-- The pending-reply invariant: the keys of `callbacks` and the ids under which a stored
callback was called are decimal texts of numbers below the counter `eventId`, and for every
id the calls made under it are at most one, none if an entry is still stored. -/
def Pending (s : Socket) : Prop :=
  (∀ p ∈ s.callbacks, ∃ k, k < s.eventId ∧ p.1 = toString k) ∧
  (∀ id, calls id s.trace ≠ [] → ∃ k, k < s.eventId ∧ id = toString k) ∧
  (∀ id, (calls id s.trace).length + (if (s.callbacks.lookup id).isSome then 1 else 0) ≤ 1)

/-- The arguments of the emit of an inbound event. -/
def dispatchArgs (s : Socket) (event : Event) : List Arg :=
  if event.reply then [.value event.data, .controller s.latches.length]
  else [.value event.data]

/-- The callback that the listener of `reply` selects. -/
def selected (reply : Value) (cbs : Callbacks) : Option Fn :=
  if ((reply.prop "exception").getD .undefined).truthy then cbs.rejected else cbs.resolved

/-- The timer invariant: no timer is pending, or only the one held by `heartbeatTimer`. -/
def OneTimer (s : Socket) : Prop := s.timers = [] ∨ s.timers = [s.heartbeatTimer]

/-- The inputs that are neither an inbound text nor a call of `send` or of a controller. -/
def Input.quiet : Input → Bool
  | .text _ => false
  | .send _ _ _ _ => false
  | .resolve _ _ => false
  | .reject _ _ => false
  | _ => true

/-! ## Basic facts on the socket operations -/

@[simp]
theorem log_trace (s : Socket) (e : Effect) : (s.log e).trace = s.trace ++ [e] := rfl
@[simp]
theorem log_latches (s : Socket) (e : Effect) : (s.log e).latches = s.latches := rfl
@[simp]
theorem log_sent (s : Socket) (e : Effect) : (s.log e).sent = s.sent := rfl
@[simp]
theorem log_eventId (s : Socket) (e : Effect) : (s.log e).eventId = s.eventId := rfl
@[simp]
theorem log_callbacks (s : Socket) (e : Effect) :
    (s.log e).callbacks = s.callbacks := rfl
@[simp]
theorem log_timers (s : Socket) (e : Effect) : (s.log e).timers = s.timers := rfl
@[simp]
theorem log_heartbeatTimer (s : Socket) (e : Effect) :
    (s.log e).heartbeatTimer = s.heartbeatTimer := rfl
@[simp]
theorem log_nextTimer (s : Socket) (e : Effect) :
    (s.log e).nextTimer = s.nextTimer := rfl
@[simp]
theorem log_options (s : Socket) (e : Effect) : (s.log e).options = s.options := rfl

theorem send_latches (codec : Codec) (s : Socket) (type : String) (data : Value)
    (resolved rejected : Option Fn) :
    (send codec s type data resolved rejected).latches = s.latches := by
  unfold send
  dsimp only
  split <;> rfl

theorem onReply_latches (s : Socket) (reply : Value) : (onReply s reply).latches = s.latches := by
  unfold onReply
  split
  · rfl
  · split
    · rfl
    · dsimp only
      split <;> rfl

theorem emit_latches (codec : Codec) (s : Socket) (name : String) (args : List Arg) :
    (emit codec s name args).latches = s.latches := by
  unfold emit
  dsimp only
  split
  · rw [onReply_latches]; rfl
  · split
    · unfold onHeartbeat
      rw [send_latches]; rfl
    · split <;> rfl

/-- A plain `send` (no callback) appends one write to the trace. -/
theorem send_plain_trace (codec : Codec) (s : Socket) (type : String) (data : Value) :
    (send codec s type data none none).trace =
      s.trace ++ [.transportSend (codec.stringify
        { id := toString s.eventId, type := type, data := data, reply := false })] := by
  simp [send]

/-- A controller whose latch is set does nothing. -/
theorem controller_latched (codec : Codec) (s : Socket) (i : Nat) (l : Latch)
    (success : Bool) (value : Value) (hl : s.latches[i]? = some l) (hlatch : l.latch = true) :
    controller codec s i success value = s := by
  simp [controller, hl, hlatch]

/-- Once the latch is set, no sequence of invocations changes the socket. -/
theorem run_invocations_latched (codec : Codec) (i : Nat) (l : Latch)
    (hlatch : l.latch = true) (calls : List (Bool × Value)) :
    ∀ s : Socket, s.latches[i]? = some l → run codec s (calls.map (invocation i)) = s := by
  induction calls with
  | nil => intro s _; rfl
  | cons c cs ih =>
    intro s hl
    have h1 : step codec s (invocation i c) = s := by
      unfold invocation
      split <;> exact controller_latched codec s i l _ _ hl hlatch
    simp only [List.map_cons, run, List.foldl_cons, h1]
    exact ih s hl

/-- The first invocation of a controller whose latch is open sends the reply and sets the
latch. -/
theorem controller_open (codec : Codec) (s : Socket) (i : Nat) (l : Latch)
    (success : Bool) (value : Value) (hl : s.latches[i]? = some l) (hlatch : l.latch = false) :
    (controller codec s i success value).trace =
        s.trace ++ [.transportSend (codec.stringify
          { id := toString s.eventId, type := "reply",
            data := envelope l.event.id value (!success), reply := false })] ∧
      (controller codec s i success value).latches[i]? = some { l with latch := true } := by
  have hi : i < s.latches.length := by
    rcases Nat.lt_or_ge i s.latches.length with h | h
    · exact h
    · rw [List.getElem?_eq_none h] at hl; cases hl
  constructor
  · simp [controller, hl, hlatch, send_plain_trace]
  · simp [controller, hl, hlatch, send_latches, hi]

/-- The latches after an inbound text that requires a reply. -/
theorem onText_latches (codec : Codec) (s : Socket) (text : String) (event : Event)
    (hparse : codec.parse text = some event) (hreply : event.reply = true) :
    (onText codec s text).latches = s.latches ++ [{ event := event, latch := false }] := by
  simp [onText, hparse, hreply, emit_latches]

/-- Every write of `send` goes to the end of the trace. -/
theorem send_trace_ext (codec : Codec) (s : Socket) (type : String) (data : Value)
    (resolved rejected : Option Fn) :
    ∃ rest, (send codec s type data resolved rejected).trace = s.trace ++ rest := by
  unfold send
  dsimp only
  split
  · simp only [log_trace, List.append_assoc]
    exact ⟨_, rfl⟩
  · exact ⟨_, rfl⟩

theorem onReply_trace_ext (s : Socket) (reply : Value) :
    ∃ rest, (onReply s reply).trace = s.trace ++ rest := by
  unfold onReply
  split
  · exact ⟨_, rfl⟩
  · split
    · exact ⟨[], by simp⟩
    · dsimp only
      split
      · exact ⟨_, rfl⟩
      · exact ⟨[], by simp⟩

theorem onHeartbeat_trace_ext (codec : Codec) (s : Socket) :
    ∃ rest, (onHeartbeat codec s).trace = s.trace ++ rest := by
  unfold onHeartbeat
  obtain ⟨r, hr⟩ := send_trace_ext codec (setHeartbeatTimer (clearHeartbeatTimer s))
    "heartbeat" .undefined none none
  rw [hr]
  simp only [setHeartbeatTimer, clearHeartbeatTimer, log_trace, List.append_assoc]
  exact ⟨_, rfl⟩

/-- The call of `self.emit` is recorded before anything its listeners do. -/
theorem emit_trace (codec : Codec) (s : Socket) (name : String) (args : List Arg) :
    ∃ rest, (emit codec s name args).trace = s.trace ++ .emit name args :: rest := by
  unfold emit
  dsimp only
  split
  · obtain ⟨r, hr⟩ := onReply_trace_ext (s.log (.emit name args)) (firstValue args)
    exact ⟨r, by rw [hr]; simp⟩
  · split
    · obtain ⟨r, hr⟩ := onHeartbeat_trace_ext codec (s.log (.emit name args))
      exact ⟨r, by rw [hr]; simp⟩
    · split
      · exact ⟨[.clearTimeout (s.log (.emit name args)).heartbeatTimer],
          by simp [clearHeartbeatTimer]⟩
      · exact ⟨[], by simp⟩

theorem writes_append (a b : List Effect) : writes (a ++ b) = writes a ++ writes b := by
  induction a with
  | nil => rfl
  | cons e a ih => cases e <;> simp [writes, ih]

theorem emits_append (a b : List Effect) : emits (a ++ b) = emits a ++ emits b := by
  induction a with
  | nil => rfl
  | cons e a ih => cases e <;> simp [emits, ih]

theorem calls_append (id : String) (a b : List Effect) :
    calls id (a ++ b) = calls id a ++ calls id b := by
  induction a with
  | nil => rfl
  | cons e a ih =>
    cases e <;> simp [calls, ih]
    split <;> simp

theorem armed_append (a b : List Effect) : armed (a ++ b) = armed a ++ armed b := by
  induction a with
  | nil => rfl
  | cons e a ih => cases e <;> simp [armed, ih]

theorem send_emits (codec : Codec) (s : Socket) (type : String) (data : Value)
    (resolved rejected : Option Fn) :
    emits (send codec s type data resolved rejected).trace = emits s.trace := by
  unfold send
  dsimp only
  split <;> simp [emits_append, emits]

theorem onReply_emits (s : Socket) (reply : Value) :
    emits (onReply s reply).trace = emits s.trace := by
  unfold onReply
  split
  · simp [emits_append, emits]
  · split
    · rfl
    · dsimp only
      split <;> simp [emits_append, emits]

theorem onHeartbeat_emits (codec : Codec) (s : Socket) :
    emits (onHeartbeat codec s).trace = emits s.trace := by
  unfold onHeartbeat
  rw [send_emits]
  simp [setHeartbeatTimer, clearHeartbeatTimer, emits_append, emits]

/-- A call of `self.emit` is one dispatch: the listeners of the socket emit nothing. -/
theorem emit_emits (codec : Codec) (s : Socket) (name : String) (args : List Arg) :
    emits (emit codec s name args).trace = emits s.trace ++ [(name, args)] := by
  unfold emit
  dsimp only
  split
  · rw [onReply_emits]; simp [emits_append, emits]
  · split
    · rw [onHeartbeat_emits]; simp [emits_append, emits]
    · split <;> simp [clearHeartbeatTimer, emits_append, emits]

theorem digitChar_value (k : Nat) (hk : k < 10) : (Nat.digitChar k).toNat - 48 = k := by
  interval_cases k <;> rfl

theorem digitChar_isDigit (k : Nat) (hk : k < 10) : (Nat.digitChar k).isDigit = true := by
  interval_cases k <;> rfl

theorem toDigitsCore_value (fuel : Nat) :
    ∀ (n : Nat) (ds : List Char), n < fuel →
      digitsValue 0 (Nat.toDigitsCore 10 fuel n ds) = digitsValue n ds := by
  induction fuel with
  | zero => intro n ds h; omega
  | succ fuel ih =>
    intro n ds h
    simp only [Nat.toDigitsCore]
    split
    · rename_i h0
      have hn : n % 10 = n := by omega
      have hv := digitChar_value (n % 10) (Nat.mod_lt _ (by decide))
      rw [hn] at hv
      simp [digitsValue, hv, hn]
    · rename_i h0
      rw [ih (n / 10) _ (by omega)]
      simp only [digitsValue, List.foldl_cons,
        digitChar_value (n % 10) (Nat.mod_lt _ (by decide))]
      congr 1
      omega

theorem toDigits_value (n : Nat) : digitsValue 0 (Nat.toDigits 10 n) = n := by
  unfold Nat.toDigits
  rw [toDigitsCore_value (n + 1) n [] (by omega)]
  rfl

/-- The decimal text of a natural number determines it. -/
theorem toString_nat_inj {a b : Nat} (h : toString a = toString b) : a = b := by
  have h1 : Nat.toDigits 10 a = Nat.toDigits 10 b := by
    have : (Nat.repr a) = (Nat.repr b) := h
    unfold Nat.repr at this
    exact congrArg String.data this
  rw [← toDigits_value a, ← toDigits_value b, h1]

theorem toDigitsCore_isDigit (fuel : Nat) :
    ∀ (n : Nat) (ds : List Char), (∀ c ∈ ds, c.isDigit = true) →
      ∀ c ∈ Nat.toDigitsCore 10 fuel n ds, c.isDigit = true := by
  induction fuel with
  | zero => intro n ds h; simpa [Nat.toDigitsCore] using h
  | succ fuel ih =>
    intro n ds h
    simp only [Nat.toDigitsCore]
    have hd := digitChar_isDigit (n % 10) (Nat.mod_lt _ (by decide))
    split
    · intro c hc
      rcases List.mem_cons.mp hc with rfl | hc
      · exact hd
      · exact h c hc
    · apply ih
      intro c hc
      rcases List.mem_cons.mp hc with rfl | hc
      · exact hd
      · exact h c hc

/-! ## The wire invariant -/

theorem Wire.wire_eq {codec : Codec} {h : String} {s s' : Socket} (hw : Wire codec h s)
    (h1 : s'.sent = s.sent) (h2 : s'.eventId = s.eventId)
    (h3 : writes s'.trace = writes s.trace) : Wire codec h s' := by
  unfold Wire at *
  rw [h1, h2, h3]
  exact hw

theorem send_wire {codec : Codec} {h : String} {s : Socket} (hw : Wire codec h s)
    (type : String) (data : Value) (resolved rejected : Option Fn) :
    Wire codec h (send codec s type data resolved rejected) := by
  obtain ⟨h1, h2⟩ := hw
  unfold send
  dsimp only
  split <;>
    simp [Wire, writes_append, writes, h1, h2, List.range_succ]

theorem onReply_wire {codec : Codec} {h : String} {s : Socket} (hw : Wire codec h s)
    (reply : Value) : Wire codec h (onReply s reply) := by
  unfold onReply
  split
  · exact hw.wire_eq rfl rfl (by simp [writes_append, writes])
  · split
    · exact hw
    · dsimp only
      split
      · exact hw.wire_eq rfl rfl (by simp [writes_append, writes])
      · exact hw.wire_eq rfl rfl rfl

theorem clearHeartbeatTimer_wire {codec : Codec} {h : String} {s : Socket}
    (hw : Wire codec h s) : Wire codec h (clearHeartbeatTimer s) :=
  hw.wire_eq rfl rfl (by simp [clearHeartbeatTimer, writes_append, writes])

theorem setHeartbeatTimer_wire {codec : Codec} {h : String} {s : Socket}
    (hw : Wire codec h s) : Wire codec h (setHeartbeatTimer s) :=
  hw.wire_eq rfl rfl (by simp [setHeartbeatTimer, writes_append, writes])

theorem emit_wire {codec : Codec} {h : String} {s : Socket} (hw : Wire codec h s)
    (name : String) (args : List Arg) : Wire codec h (emit codec s name args) := by
  have h0 : Wire codec h (s.log (.emit name args)) :=
    hw.wire_eq rfl rfl (by simp [writes_append, writes])
  unfold emit
  dsimp only
  split
  · exact onReply_wire h0 _
  · split
    · exact send_wire (setHeartbeatTimer_wire (clearHeartbeatTimer_wire h0)) _ _ _ _
    · split
      · exact clearHeartbeatTimer_wire h0
      · exact h0

theorem controller_wire {codec : Codec} {h : String} {s : Socket} (hw : Wire codec h s)
    (i : Nat) (success : Bool) (value : Value) :
    Wire codec h (controller codec s i success value) := by
  unfold controller
  split
  · exact hw
  · split
    · apply send_wire
      exact hw.wire_eq rfl rfl rfl
    · exact hw

theorem step_wire {codec : Codec} {h : String} {s : Socket} (hw : Wire codec h s)
    (i : Input) : Wire codec h (step codec s i) := by
  cases i with
  | text t =>
    simp only [step, onText]
    split
    · exact hw.wire_eq rfl rfl (by simp [writes_append, writes])
    · split
      · exact emit_wire hw _ _
      · apply emit_wire
        exact hw.wire_eq rfl rfl rfl
  | error e =>
    simp only [step, onTransportError]
    exact emit_wire hw _ _
  | close =>
    simp only [step, onTransportClose]
    exact emit_wire hw _ _
  | timeout t =>
    simp only [step, onTimeout]
    split
    · have h1 : Wire codec h { s with timers := s.timers.filter (fun u => u ≠ t) } :=
        hw.wire_eq rfl rfl rfl
      exact (emit_wire h1 "error" [.error "heartbeat"]).wire_eq rfl rfl
        (by simp [close, writes_append, writes])
    · exact hw
  | send type data resolved rejected =>
    simp only [step]
    exact send_wire hw _ _ _ _
  | closeCall =>
    simp only [step]
    exact hw.wire_eq rfl rfl (by simp [close, writes_append, writes])
  | resolve i v =>
    simp only [step]
    exact controller_wire hw _ _ _
  | reject i v =>
    simp only [step]
    exact controller_wire hw _ _ _
  | setHeartbeat hb =>
    simp only [step]
    exact hw.wire_eq rfl rfl rfl
  | set_heartbeat t =>
    simp only [step]
    exact hw.wire_eq rfl rfl rfl

theorem run_wire {codec : Codec} {h : String} (inputs : List Input) :
    ∀ {s : Socket}, Wire codec h s → Wire codec h (run codec s inputs) := by
  induction inputs with
  | nil => intro s hw; exact hw
  | cons i is ih => intro s hw; exact ih (step_wire hw i)

theorem createSocket_wire (codec : Codec) (options : Options) :
    Wire codec (handshake options) (createSocket options) := by
  simp [Wire, createSocket, setHeartbeatTimer, writes_append, writes]

/-! ## The trace only grows -/

theorem controller_trace_ext (codec : Codec) (s : Socket) (i : Nat) (success : Bool)
    (value : Value) : ∃ rest, (controller codec s i success value).trace = s.trace ++ rest := by
  unfold controller
  split
  · exact ⟨[], by simp⟩
  · split
    · exact send_trace_ext codec _ _ _ _ _
    · exact ⟨[], by simp⟩

theorem step_trace_ext (codec : Codec) (s : Socket) (i : Input) :
    ∃ rest, (step codec s i).trace = s.trace ++ rest := by
  cases i with
  | text t =>
    simp only [step, onText]
    split
    · exact ⟨_, rfl⟩
    · split
      · obtain ⟨r, hr⟩ := emit_trace codec s _ _
        exact ⟨_, hr⟩
      · obtain ⟨r, hr⟩ := emit_trace codec _ _ _
        exact ⟨_, hr⟩
  | error e =>
    simp only [step, onTransportError]
    obtain ⟨r, hr⟩ := emit_trace codec s "error" [.error e]
    exact ⟨_, hr⟩
  | close =>
    simp only [step, onTransportClose]
    obtain ⟨r, hr⟩ := emit_trace codec s "close" []
    exact ⟨_, hr⟩
  | timeout t =>
    simp only [step, onTimeout]
    split
    · obtain ⟨r, hr⟩ := emit_trace codec { s with timers := s.timers.filter (fun u => u ≠ t) }
        "error" [.error "heartbeat"]
      simp only [close, log_trace, hr, List.append_assoc]
      exact ⟨_, rfl⟩
    · exact ⟨[], by simp⟩
  | send type data resolved rejected =>
    simp only [step]
    exact send_trace_ext codec s _ _ _ _
  | closeCall =>
    simp only [step]
    exact ⟨_, rfl⟩
  | resolve i v =>
    simp only [step]
    exact controller_trace_ext codec s _ _ _
  | reject i v =>
    simp only [step]
    exact controller_trace_ext codec s _ _ _
  | setHeartbeat hb =>
    simp only [step]
    exact ⟨[], by simp⟩
  | set_heartbeat t =>
    simp only [step]
    exact ⟨[], by simp⟩

theorem run_trace_ext (codec : Codec) (inputs : List Input) :
    ∀ s : Socket, ∃ rest, (run codec s inputs).trace = s.trace ++ rest := by
  induction inputs with
  | nil => intro s; exact ⟨[], by simp [run]⟩
  | cons i is ih =>
    intro s
    obtain ⟨r1, h1⟩ := step_trace_ext codec s i
    obtain ⟨r2, h2⟩ := ih (step codec s i)
    refine ⟨r1 ++ r2, ?_⟩
    simp only [run, List.foldl_cons] at h2 ⊢
    rw [h2, h1, List.append_assoc]

/-! ## The pending replies -/

theorem lookup_cons_eq {β : Type} (k : String) (b : β) (l : List (String × β)) :
    List.lookup k ((k, b) :: l) = some b := by
  simp [List.lookup]

theorem lookup_cons_ne {β : Type} (k a : String) (b : β) (l : List (String × β))
    (h : k ≠ a) : List.lookup k ((a, b) :: l) = List.lookup k l := by
  have h' : (k == a) = false := by simpa using h
  simp only [List.lookup, h']

theorem lookup_filter_self {β : Type} (k : String) (l : List (String × β)) :
    (l.filter (fun p => p.1 ≠ k)).lookup k = none := by
  induction l with
  | nil => rfl
  | cons p l ih =>
    obtain ⟨a, b⟩ := p
    rw [List.filter_cons]
    split
    · rename_i h
      have h1 : k ≠ a := by
        intro e
        simp [e] at h
      rw [lookup_cons_ne k a b _ h1]
      exact ih
    · exact ih

theorem lookup_filter_ne {β : Type} (k id : String) (hne : id ≠ k) (l : List (String × β)) :
    (l.filter (fun p => p.1 ≠ k)).lookup id = l.lookup id := by
  induction l with
  | nil => rfl
  | cons p l ih =>
    obtain ⟨a, b⟩ := p
    rw [List.filter_cons]
    split
    · by_cases h2 : id = a
      · subst h2
        rw [lookup_cons_eq, lookup_cons_eq]
      · rw [lookup_cons_ne _ _ _ _ h2, lookup_cons_ne _ _ _ _ h2]
        exact ih
    · rename_i h
      have h1 : a = k := by simpa using h
      have h2 : id ≠ a := by rw [h1]; exact hne
      rw [lookup_cons_ne _ _ _ _ h2]
      exact ih

theorem lookup_some_mem {β : Type} (k : String) (b : β) (l : List (String × β))
    (h : l.lookup k = some b) : (k, b) ∈ l := by
  induction l with
  | nil => simp [List.lookup] at h
  | cons p l ih =>
    obtain ⟨a, c⟩ := p
    by_cases h2 : k = a
    · subst h2
      rw [lookup_cons_eq] at h
      cases h
      exact List.mem_cons_self _ _
    · rw [lookup_cons_ne _ _ _ _ h2] at h
      exact List.mem_cons_of_mem _ (ih h)

/-- The inbound text of an event is dispatched by one emit. -/
theorem onText_parsed (codec : Codec) (s : Socket) (text : String) (event : Event)
    (hparse : codec.parse text = some event) :
    ∃ s₀ : Socket, s₀.trace = s.trace ∧ s₀.callbacks = s.callbacks ∧
      s₀.eventId = s.eventId ∧
      onText codec s text = emit codec s₀ event.type (dispatchArgs s event) := by
  unfold onText dispatchArgs
  rw [hparse]
  dsimp only
  cases event.reply
  · exact ⟨s, rfl, rfl, rfl, by simp⟩
  · exact ⟨{ s with latches := s.latches ++ [{ event := event, latch := false }] },
      rfl, rfl, rfl, by simp⟩

theorem firstValue_dispatchArgs (s : Socket) (event : Event) :
    firstValue (dispatchArgs s event) = event.data := by
  unfold dispatchArgs
  split <;> rfl

/-- The listener of `reply` on an envelope whose id has an entry. -/
theorem onReply_entry (s : Socket) (reply id : Value) (cbs : Callbacks)
    (hid : reply.prop "id" = some id) (hentry : s.callbacks.lookup id.toKey = some cbs) :
    (onReply s reply).trace =
        s.trace ++ ((selected reply cbs).map
          (fun f => Effect.call id.toKey f ((reply.prop "data").getD .undefined))).toList ∧
      (onReply s reply).callbacks = s.callbacks.filter (fun p => p.1 ≠ id.toKey) ∧
      (onReply s reply).eventId = s.eventId := by
  unfold onReply selected
  rw [hid]
  dsimp only
  rw [hentry]
  dsimp only
  split <;> rename_i heq <;> simp [heq]

/-- The listener of `reply` on an envelope whose id has no entry. -/
theorem onReply_absent (s : Socket) (reply id : Value)
    (hid : reply.prop "id" = some id) (hentry : s.callbacks.lookup id.toKey = none) :
    onReply s reply = s := by
  unfold onReply
  rw [hid]
  dsimp only
  rw [hentry]

theorem send_eventId (codec : Codec) (s : Socket) (type : String) (data : Value)
    (resolved rejected : Option Fn) :
    (send codec s type data resolved rejected).eventId = s.eventId + 1 := by
  unfold send
  dsimp only
  split <;> rfl

theorem send_calls (codec : Codec) (s : Socket) (type : String) (data : Value)
    (resolved rejected : Option Fn) (id : String) :
    calls id (send codec s type data resolved rejected).trace = calls id s.trace := by
  unfold send
  dsimp only
  split <;> simp [calls_append, calls]

theorem send_callbacks (codec : Codec) (s : Socket) (type : String) (data : Value)
    (resolved rejected : Option Fn) :
    (send codec s type data resolved rejected).callbacks =
      if (resolved.isSome || rejected.isSome) = true then
        (toString s.eventId, { resolved := resolved, rejected := rejected }) ::
          s.callbacks.filter (fun p => p.1 ≠ toString s.eventId)
      else s.callbacks := by
  unfold send
  dsimp only
  split <;> rfl

theorem Pending.pending_eq {s s' : Socket} (hp : Pending s) (h1 : s'.callbacks = s.callbacks)
    (h2 : s'.eventId = s.eventId) (h3 : ∀ id, calls id s'.trace = calls id s.trace) :
    Pending s' := by
  unfold Pending at *
  simp only [h1, h2, h3]
  exact hp

theorem send_pending {s : Socket} (hp : Pending s) (codec : Codec) (type : String)
    (data : Value) (resolved rejected : Option Fn) :
    Pending (send codec s type data resolved rejected) := by
  obtain ⟨h1, h2, h3⟩ := hp
  unfold Pending
  simp only [send_eventId, send_calls, send_callbacks]
  refine ⟨?_, ?_, ?_⟩
  · intro p hp
    split at hp
    · rcases List.mem_cons.mp hp with rfl | hp
      · exact ⟨s.eventId, Nat.lt_succ_self _, rfl⟩
      · obtain ⟨k, hk, e⟩ := h1 p (List.mem_of_mem_filter hp)
        exact ⟨k, Nat.lt_succ_of_lt hk, e⟩
    · obtain ⟨k, hk, e⟩ := h1 p hp
      exact ⟨k, Nat.lt_succ_of_lt hk, e⟩
  · intro id hid
    obtain ⟨k, hk, e⟩ := h2 id hid
    exact ⟨k, Nat.lt_succ_of_lt hk, e⟩
  · intro id
    split
    · by_cases hid : id = toString s.eventId
      · have hnone : calls id s.trace = [] := by
          by_contra hne
          obtain ⟨k, hk, e⟩ := h2 id hne
          rw [hid] at e
          have := toString_nat_inj e
          omega
        rw [hnone, hid, lookup_cons_eq]
        simp
      · rw [lookup_cons_ne _ _ _ _ hid, lookup_filter_ne _ _ hid]
        exact h3 id
    · exact h3 id

theorem onReply_pending {s : Socket} (hp : Pending s) (reply : Value) :
    Pending (onReply s reply) := by
  cases hid : reply.prop "id" with
  | none =>
    have h : onReply s reply = s.log (.throw "TypeError") := by
      unfold onReply; rw [hid]
    rw [h]
    exact hp.pending_eq rfl rfl (fun id => by simp [calls_append, calls])
  | some id =>
    cases hentry : s.callbacks.lookup id.toKey with
    | none => rw [onReply_absent s reply id hid hentry]; exact hp
    | some cbs =>
      obtain ⟨e1, e2, e3⟩ := onReply_entry s reply id cbs hid hentry
      obtain ⟨h1, h2, h3⟩ := hp
      have hkey : ∃ k, k < s.eventId ∧ id.toKey = toString k :=
        h1 _ (lookup_some_mem _ _ _ hentry)
      have hzero : calls id.toKey s.trace = [] := by
        have := h3 id.toKey
        rw [hentry] at this
        simp only [Option.isSome_some, if_true] at this
        exact List.length_eq_zero.mp (by omega)
      have hcalls : ∀ i, i ≠ id.toKey → calls i (onReply s reply).trace = calls i s.trace := by
        intro i hi
        rw [e1, calls_append]
        cases selected reply cbs with
        | none => simp [calls]
        | some f =>
          have : ¬ id.toKey = i := fun e => hi e.symm
          simp [calls, this]
      have hlen : (calls id.toKey (onReply s reply).trace).length ≤ 1 := by
        rw [e1, calls_append, hzero]
        cases selected reply cbs with
        | none => simp [calls]
        | some f => simp [calls]
      unfold Pending
      rw [e2, e3]
      refine ⟨?_, ?_, ?_⟩
      · intro p hp
        exact h1 p (List.mem_of_mem_filter hp)
      · intro i hi
        by_cases hik : i = id.toKey
        · rw [hik]; exact hkey
        · rw [hcalls i hik] at hi
          exact h2 i hi
      · intro i
        by_cases hik : i = id.toKey
        · rw [hik, lookup_filter_self]
          simpa using hlen
        · rw [hcalls i hik, lookup_filter_ne _ _ hik]
          exact h3 i

theorem log_pending {s : Socket} (hp : Pending s) (e : Effect)
    (he : ∀ id, calls id [e] = []) : Pending (s.log e) :=
  hp.pending_eq rfl rfl (fun id => by simp [calls_append, he])

theorem clearHeartbeatTimer_pending {s : Socket} (hp : Pending s) :
    Pending (clearHeartbeatTimer s) :=
  hp.pending_eq rfl rfl (fun id => by simp [clearHeartbeatTimer, calls_append, calls])

theorem setHeartbeatTimer_pending {s : Socket} (hp : Pending s) :
    Pending (setHeartbeatTimer s) :=
  hp.pending_eq rfl rfl (fun id => by simp [setHeartbeatTimer, calls_append, calls])

theorem emit_pending {s : Socket} (hp : Pending s) (codec : Codec) (name : String)
    (args : List Arg) : Pending (emit codec s name args) := by
  have h0 : Pending (s.log (.emit name args)) := log_pending hp _ (fun _ => rfl)
  unfold emit
  dsimp only
  split
  · exact onReply_pending h0 _
  · split
    · exact send_pending (setHeartbeatTimer_pending (clearHeartbeatTimer_pending h0)) _ _ _ _ _
    · split
      · exact clearHeartbeatTimer_pending h0
      · exact h0

theorem controller_pending {s : Socket} (hp : Pending s) (codec : Codec) (i : Nat)
    (success : Bool) (value : Value) : Pending (controller codec s i success value) := by
  unfold controller
  split
  · exact hp
  · split
    · apply send_pending
      exact hp.pending_eq rfl rfl (fun _ => rfl)
    · exact hp

theorem step_pending {s : Socket} (hp : Pending s) (codec : Codec) (i : Input) :
    Pending (step codec s i) := by
  cases i with
  | text t =>
    simp only [step, onText]
    split
    · exact log_pending hp _ (fun _ => rfl)
    · split
      · exact emit_pending hp _ _ _
      · apply emit_pending
        exact hp.pending_eq rfl rfl (fun _ => rfl)
  | error e =>
    simp only [step, onTransportError]
    exact emit_pending hp _ _ _
  | close =>
    simp only [step, onTransportClose]
    exact emit_pending hp _ _ _
  | timeout t =>
    simp only [step, onTimeout]
    split
    · have h1 : Pending { s with timers := s.timers.filter (fun u => u ≠ t) } :=
        hp.pending_eq rfl rfl (fun _ => rfl)
      exact log_pending (emit_pending h1 codec "error" [.error "heartbeat"]) _ (fun _ => rfl)
    · exact hp
  | send type data resolved rejected =>
    simp only [step]
    exact send_pending hp _ _ _ _ _
  | closeCall =>
    simp only [step]
    exact log_pending hp _ (fun _ => rfl)
  | resolve i v =>
    simp only [step]
    exact controller_pending hp _ _ _ _
  | reject i v =>
    simp only [step]
    exact controller_pending hp _ _ _ _
  | setHeartbeat hb =>
    simp only [step]
    exact hp.pending_eq rfl rfl (fun _ => rfl)
  | set_heartbeat t =>
    simp only [step]
    exact hp.pending_eq rfl rfl (fun _ => rfl)

theorem run_pending (codec : Codec) (inputs : List Input) :
    ∀ {s : Socket}, Pending s → Pending (run codec s inputs) := by
  induction inputs with
  | nil => intro s hp; exact hp
  | cons i is ih => intro s hp; exact ih (step_pending hp codec i)

theorem createSocket_pending (options : Options) : Pending (createSocket options) := by
  unfold Pending
  refine ⟨?_, ?_, ?_⟩
  · intro p hp
    simp [createSocket, setHeartbeatTimer] at hp
  · intro id hid
    simp [createSocket, setHeartbeatTimer, calls] at hid
  · intro id
    simp [createSocket, setHeartbeatTimer, calls]

/-! ## The heartbeat timer -/

theorem OneTimer.timer_eq {s s' : Socket} (ht : OneTimer s) (h1 : s'.timers = s.timers)
    (h2 : s'.heartbeatTimer = s.heartbeatTimer) : OneTimer s' := by
  unfold OneTimer at *
  rw [h1, h2]
  exact ht

theorem send_timers (codec : Codec) (s : Socket) (type : String) (data : Value)
    (resolved rejected : Option Fn) :
    (send codec s type data resolved rejected).timers = s.timers ∧
      (send codec s type data resolved rejected).heartbeatTimer = s.heartbeatTimer := by
  unfold send
  dsimp only
  split <;> exact ⟨rfl, rfl⟩

theorem onReply_timers (s : Socket) (reply : Value) :
    (onReply s reply).timers = s.timers ∧
      (onReply s reply).heartbeatTimer = s.heartbeatTimer := by
  unfold onReply
  split
  · exact ⟨rfl, rfl⟩
  · split
    · exact ⟨rfl, rfl⟩
    · dsimp only
      split <;> exact ⟨rfl, rfl⟩

/-- Clearing the heartbeat timer leaves no timer pending. -/
theorem clearHeartbeatTimer_timers {s : Socket} (ht : OneTimer s) :
    (clearHeartbeatTimer s).timers = [] := by
  rcases ht with h | h <;> simp [clearHeartbeatTimer, h]

/-- Handling a heartbeat leaves exactly the new timer pending. -/
theorem onHeartbeat_timers {s : Socket} (ht : OneTimer s) (codec : Codec) :
    (onHeartbeat codec s).timers = [s.nextTimer] ∧
      (onHeartbeat codec s).heartbeatTimer = s.nextTimer := by
  unfold onHeartbeat
  obtain ⟨h1, h2⟩ := send_timers codec (setHeartbeatTimer (clearHeartbeatTimer s))
    "heartbeat" .undefined none none
  rw [h1, h2]
  have hc := clearHeartbeatTimer_timers ht
  constructor
  · simp only [setHeartbeatTimer, log_timers, hc]
    rfl
  · rfl

theorem emit_oneTimer {s : Socket} (ht : OneTimer s) (codec : Codec) (name : String)
    (args : List Arg) : OneTimer (emit codec s name args) := by
  have h0 : OneTimer (s.log (.emit name args)) := ht.timer_eq rfl rfl
  unfold emit
  dsimp only
  split
  · obtain ⟨h1, h2⟩ := onReply_timers (s.log (.emit name args)) (firstValue args)
    exact h0.timer_eq h1 h2
  · split
    · obtain ⟨h1, h2⟩ := onHeartbeat_timers h0 codec
      right
      rw [h1, h2]
    · split
      · left; exact clearHeartbeatTimer_timers h0
      · exact h0

theorem controller_oneTimer {s : Socket} (ht : OneTimer s) (codec : Codec) (i : Nat)
    (success : Bool) (value : Value) : OneTimer (controller codec s i success value) := by
  unfold controller
  split
  · exact ht
  · split
    · obtain ⟨h1, h2⟩ := send_timers codec
        { s with latches := s.latches.set i { (‹Latch› : Latch) with latch := true } }
        "reply" (envelope (‹Latch› : Latch).event.id value (!success)) none none
      exact ht.timer_eq h1 h2
    · exact ht

theorem step_oneTimer {s : Socket} (ht : OneTimer s) (codec : Codec) (i : Input) :
    OneTimer (step codec s i) := by
  cases i with
  | text t =>
    simp only [step, onText]
    split
    · exact ht.timer_eq rfl rfl
    · split
      · exact emit_oneTimer ht _ _ _
      · apply emit_oneTimer
        exact ht.timer_eq rfl rfl
  | error e =>
    simp only [step, onTransportError]
    exact emit_oneTimer ht _ _ _
  | close =>
    simp only [step, onTransportClose]
    exact emit_oneTimer ht _ _ _
  | timeout t =>
    simp only [step, onTimeout]
    split
    · rename_i hmem
      have h1 : OneTimer { s with timers := s.timers.filter (fun u => u ≠ t) } := by
        left
        rcases ht with h | h
        · simp [h]
        · rw [h] at hmem
          have : t = s.heartbeatTimer := by simpa using hmem
          simp [h, this]
      exact (emit_oneTimer h1 codec "error" [.error "heartbeat"]).timer_eq rfl rfl
    · exact ht
  | send type data resolved rejected =>
    simp only [step]
    obtain ⟨h1, h2⟩ := send_timers codec s type data resolved rejected
    exact ht.timer_eq h1 h2
  | closeCall =>
    simp only [step]
    exact ht.timer_eq rfl rfl
  | resolve i v =>
    simp only [step]
    exact controller_oneTimer ht _ _ _ _
  | reject i v =>
    simp only [step]
    exact controller_oneTimer ht _ _ _ _
  | setHeartbeat hb =>
    simp only [step]
    exact ht.timer_eq rfl rfl
  | set_heartbeat t =>
    simp only [step]
    exact ht.timer_eq rfl rfl

theorem run_oneTimer (codec : Codec) (inputs : List Input) :
    ∀ {s : Socket}, OneTimer s → OneTimer (run codec s inputs) := by
  induction inputs with
  | nil => intro s ht; exact ht
  | cons i is ih => intro s ht; exact ih (step_oneTimer ht codec i)

theorem createSocket_oneTimer (options : Options) : OneTimer (createSocket options) := by
  right
  rfl

/-- The close notification of the transport: one emit, and no timer is left pending. -/
theorem step_close {s : Socket} (ht : OneTimer s) (codec : Codec) :
    (step codec s .close).trace =
        s.trace ++ [.emit "close" [], .clearTimeout s.heartbeatTimer] ∧
      (step codec s .close).timers = [] := by
  have h : step codec s .close = clearHeartbeatTimer (s.log (.emit "close" [])) := by
    simp [step, onTransportClose, emit]
  rw [h]
  constructor
  · simp [clearHeartbeatTimer]
  · exact clearHeartbeatTimer_timers (ht.timer_eq rfl rfl)

/-- With no timer pending, a quiet input arms no timer and writes nothing. -/
theorem step_quiet (codec : Codec) (s : Socket) (i : Input) (hq : i.quiet = true)
    (ht : s.timers = []) :
    (step codec s i).timers = [] ∧ writes (step codec s i).trace = writes s.trace ∧
      armed (step codec s i).trace = armed s.trace := by
  cases i with
  | text t => cases hq
  | send type data resolved rejected => cases hq
  | resolve i v => cases hq
  | reject i v => cases hq
  | error e =>
    have h : step codec s (.error e) = s.log (.emit "error" [.error e]) := by
      simp [step, onTransportError, emit]
    rw [h]
    simp [ht, writes_append, writes, armed_append, armed]
  | close =>
    have h : step codec s .close = clearHeartbeatTimer (s.log (.emit "close" [])) := by
      simp [step, onTransportClose, emit]
    rw [h]
    simp [clearHeartbeatTimer, ht, writes_append, writes, armed_append, armed]
  | timeout t =>
    have h : step codec s (.timeout t) = s := by
      simp [step, onTimeout, ht]
    rw [h]
    exact ⟨ht, rfl, rfl⟩
  | closeCall =>
    simp [step, close, ht, writes_append, writes, armed_append, armed]
  | setHeartbeat hb => exact ⟨ht, rfl, rfl⟩
  | set_heartbeat t => exact ⟨ht, rfl, rfl⟩

theorem run_quiet (codec : Codec) (inputs : List Input) :
    ∀ s : Socket, (∀ i ∈ inputs, i.quiet = true) → s.timers = [] →
      (run codec s inputs).timers = [] ∧ writes (run codec s inputs).trace = writes s.trace ∧
        armed (run codec s inputs).trace = armed s.trace := by
  induction inputs with
  | nil => intro s _ ht; exact ⟨ht, rfl, rfl⟩
  | cons i is ih =>
    intro s hq ht
    obtain ⟨h1, h2, h3⟩ := step_quiet codec s i (hq i (List.mem_cons_self _ _)) ht
    obtain ⟨k1, k2, k3⟩ := ih (step codec s i)
      (fun j hj => hq j (List.mem_cons_of_mem _ hj)) h1
    simp only [run, List.foldl_cons] at k1 k2 k3 ⊢
    exact ⟨k1, k2.trans h2, k3.trans h3⟩

/-- The inbound text of an event is dispatched by one emit, after the latch of a
reply-requiring event has been created. -/
theorem onText_emit (codec : Codec) (s : Socket) (text : String) (event : Event)
    (hparse : codec.parse text = some event) :
    ∃ ls, onText codec s text =
      emit codec { s with latches := ls } event.type (dispatchArgs s event) := by
  unfold onText dispatchArgs
  rw [hparse]
  dsimp only
  cases event.reply
  · exact ⟨s.latches, by simp⟩
  · exact ⟨s.latches ++ [{ event := event, latch := false }], by simp⟩

/-- Handling an inbound heartbeat: the timer is cleared and armed again for the interval of
the options, then the acknowledgement is written. -/
theorem onText_heartbeat {s : Socket} (ht : OneTimer s) (codec : Codec) (text : String)
    (event : Event) (hparse : codec.parse text = some event)
    (htype : event.type = "heartbeat") :
    (step codec s (.text text)).trace =
        s.trace ++ [.emit "heartbeat" (dispatchArgs s event),
          .clearTimeout s.heartbeatTimer, .setTimeout s.nextTimer s.options.heartbeat,
          .transportSend (codec.stringify
            { id := toString s.eventId, type := "heartbeat", data := .undefined,
              reply := false })] ∧
      (step codec s (.text text)).timers = [s.nextTimer] ∧
      (step codec s (.text text)).heartbeatTimer = s.nextTimer := by
  obtain ⟨ls, h⟩ := onText_emit codec s text event hparse
  have hstep : step codec s (.text text) = onText codec s text := rfl
  have hemit : emit codec { s with latches := ls } "heartbeat" (dispatchArgs s event) =
      onHeartbeat codec (({ s with latches := ls } : Socket).log
        (.emit "heartbeat" (dispatchArgs s event))) := by
    simp [emit]
  rw [hstep, h, htype, hemit]
  have ht' : OneTimer (({ s with latches := ls } : Socket).log
      (.emit "heartbeat" (dispatchArgs s event))) := ht.timer_eq rfl rfl
  obtain ⟨h1, h2⟩ := onHeartbeat_timers ht' codec
  refine ⟨?_, h1, h2⟩
  unfold onHeartbeat
  rw [send_plain_trace]
  simp [setHeartbeatTimer, clearHeartbeatTimer]

/-- The heartbeat timer falling due: the error is emitted and the socket closed. -/
theorem step_timeout {s : Socket} (ht : OneTimer s) (codec : Codec)
    (hmem : s.heartbeatTimer ∈ s.timers) :
    (step codec s (.timeout s.heartbeatTimer)).trace =
        s.trace ++ [.emit "error" [.error "heartbeat"], .transportClose] ∧
      (step codec s (.timeout s.heartbeatTimer)).timers = [] ∧
      (step codec s (.timeout s.heartbeatTimer)).heartbeatTimer = s.heartbeatTimer := by
  have htimers : s.timers = [s.heartbeatTimer] := by
    rcases ht with h | h
    · rw [h] at hmem; cases hmem
    · exact h
  have h : step codec s (.timeout s.heartbeatTimer) =
      close (({ s with timers := s.timers.filter (fun u => u ≠ s.heartbeatTimer) } :
        Socket).log (.emit "error" [.error "heartbeat"])) := by
    simp [step, onTimeout, hmem, emit]
  rw [h]
  refine ⟨by simp [close], ?_, rfl⟩
  simp [close, htimers]

/-- With no timer pending, no timer can fall due. -/
theorem step_timeout_idle (codec : Codec) (s : Socket) (t : Nat) (h : s.timers = []) :
    step codec s (.timeout t) = s := by
  simp [step, onTimeout, h]

/-! ## The JSON codec gives events back -/

theorem hexValue_hexDigit (k : Nat) (hk : k < 16) : hexValue (hexDigit k) = some k := by
  interval_cases k <;> rfl

theorem readString_unicode (c : Char) (h : c.toNat < 32) (tail acc : List Char) :
    readString ('\\' :: 'u' :: '0' :: '0' :: hexDigit (c.toNat / 16) ::
        hexDigit (c.toNat % 16) :: tail) acc = readString tail (c :: acc) := by
  have h1 : hexValue (hexDigit (c.toNat / 16)) = some (c.toNat / 16) :=
    hexValue_hexDigit _ (by omega)
  have h2 : hexValue (hexDigit (c.toNat % 16)) = some (c.toNat % 16) :=
    hexValue_hexDigit _ (by omega)
  have h0 : hexValue '0' = some 0 := rfl
  have hc : Char.ofNat (((0 * 16 + 0) * 16 + c.toNat / 16) * 16 + c.toNat % 16) = c := by
    have : ((0 * 16 + 0) * 16 + c.toNat / 16) * 16 + c.toNat % 16 = c.toNat := by omega
    rw [this, Char.ofNat_toNat]
  rw [readString.eq_def]
  simp only [h0, h1, h2, hc]
  simp

theorem readString_quote (cs : List Char) :
    ∀ (acc rest : List Char),
      readString (quoteChars cs ++ '"' :: rest) acc = some (⟨acc.reverse ++ cs⟩, rest) := by
  induction cs with
  | nil =>
    intro acc rest
    show readString ('"' :: rest) acc = _
    rw [readString.eq_def]
    simp
  | cons c cs ih =>
    intro acc rest
    simp only [quoteChars]
    by_cases h1 : c = '"'
    · subst h1
      simp [readString, ih]
    · by_cases h2 : c = '\\'
      · subst h2
        simp [readString, ih]
      · by_cases h3 : c = '\n'
        · subst h3
          simp [readString, ih]
        · by_cases h4 : c = '\r'
          · subst h4
            simp [readString, ih]
          · by_cases h5 : c = '\t'
            · subst h5
              simp [readString, ih]
            · by_cases h7 : c = Char.ofNat 8
              · subst h7
                simp [readString, ih]
              · by_cases h8 : c = Char.ofNat 12
                · subst h8
                  simp [readString, ih]
                · by_cases h6 : c.toNat < 32
                  · simp only [h1, h2, h3, h4, h5, h6, h7, h8, if_true, if_false]
                    show readString ('\\' :: 'u' :: '0' :: '0' :: hexDigit (c.toNat / 16) ::
                      hexDigit (c.toNat % 16) :: (quoteChars cs ++ '"' :: rest)) acc = _
                    rw [readString_unicode c h6, ih]
                    simp
                  · simp only [h1, h2, h3, h4, h5, h6, h7, h8, if_false]
                    show readString (c :: (quoteChars cs ++ '"' :: rest)) acc = _
                    rw [readString.eq_def]
                    simp [h1, h2, ih]


theorem readDigits_append (ds : List Char) (hds : ∀ c ∈ ds, c.isDigit = true)
    (rest : List Char) (hrest : NoDigitHead rest) :
    ∀ n, readDigits (ds ++ rest) n = (digitsValue n ds, rest) := by
  induction ds with
  | nil =>
    intro n
    cases rest with
    | nil => rfl
    | cons c cs =>
      have : c.isDigit = false := hrest c (by simp)
      simp [readDigits, this, digitsValue]
  | cons d ds ih =>
    intro n
    have hd : d.isDigit = true := hds d (List.mem_cons_self _ _)
    have := ih (fun c hc => hds c (List.mem_cons_of_mem _ hc)) (n * 10 + (d.toNat - 48))
    show readDigits (d :: (ds ++ rest)) n = _
    rw [readDigits]
    simp only [hd, if_true]
    rw [this]
    rfl

theorem toDigits_isDigit (n : Nat) : ∀ c ∈ Nat.toDigits 10 n, c.isDigit = true :=
  toDigitsCore_isDigit (n + 1) n [] (by simp)

theorem toDigitsCore_ne_nil (fuel : Nat) :
    ∀ (n : Nat) (ds : List Char), ds ≠ [] → Nat.toDigitsCore 10 fuel n ds ≠ [] := by
  induction fuel with
  | zero => intro n ds h; simpa [Nat.toDigitsCore] using h
  | succ fuel ih =>
    intro n ds h
    simp only [Nat.toDigitsCore]
    split
    · simp
    · exact ih _ _ (by simp)

theorem toDigits_ne_nil (n : Nat) : Nat.toDigits 10 n ≠ [] := by
  unfold Nat.toDigits
  simp only [Nat.toDigitsCore]
  split
  · simp
  · exact toDigitsCore_ne_nil _ _ _ (by simp)

theorem readDigits_toDigits (n : Nat) (rest : List Char) (hrest : NoDigitHead rest) :
    readDigits (Nat.toDigits 10 n ++ rest) 0 = (n, rest) := by
  rw [readDigits_append _ (toDigits_isDigit n) rest hrest, toDigits_value]

theorem isDigit_ne (d : Char) (hd : d.isDigit = true) :
    d ≠ '"' ∧ d ≠ '[' ∧ d ≠ '{' ∧ d ≠ '-' := by
  refine ⟨?_, ?_, ?_, ?_⟩ <;> (intro h; subst h; exact absurd hd (by decide))

theorem readValue_nat (fuel n : Nat) (rest : List Char) (hrest : NoDigitHead rest) :
    readValue (fuel + 1) (Nat.toDigits 10 n ++ rest) = some (.num n, rest) := by
  have hne := toDigits_ne_nil n
  have hall := toDigits_isDigit n
  have hread := readDigits_toDigits n rest hrest
  cases hD : Nat.toDigits 10 n with
  | nil => exact absurd hD hne
  | cons d ds =>
    rw [hD] at hall hread
    have hd : d.isDigit = true := hall d (List.mem_cons_self _ _)
    obtain ⟨h1, h2, h3, h4⟩ := isDigit_ne d hd
    simp only [List.cons_append] at hread ⊢
    simp only [readValue, h1, h2, h3, h4, if_false, hd, if_true, hread]

theorem readValue_num (fuel : Nat) (n : Int) (rest : List Char) (hrest : NoDigitHead rest) :
    readValue (fuel + 1) ((toString n).data ++ rest) = some (.num n, rest) := by
  cases n with
  | ofNat m => exact readValue_nat fuel m rest hrest
  | negSucc m =>
    have hs : (toString (Int.negSucc m)).data = '-' :: Nat.toDigits 10 (m + 1) := rfl
    have hne := toDigits_ne_nil (m + 1)
    have hall := toDigits_isDigit (m + 1)
    have hread := readDigits_toDigits (m + 1) rest hrest
    rw [hs]
    cases hD : Nat.toDigits 10 (m + 1) with
    | nil => exact absurd hD hne
    | cons d ds =>
      rw [hD] at hall hread
      have hd : d.isDigit = true := hall d (List.mem_cons_self _ _)
      simp only [List.cons_append] at hread ⊢
      simp only [readValue, hd, hread]
      simp
      rw [Int.negSucc_eq]
      omega


theorem Members.json_cons (sep : Bool) (k : String) (x : Value) (ms : Members)
    (hx : x.plain = true) :
    Members.json sep (.cons k x ms) =
      (if sep then [','] else []) ++ quote k ++ [':'] ++ Value.json x ++ Members.json true ms := by
  cases x <;> first | (simp [Value.plain] at hx; done) | simp [Members.json]

theorem json_head (v : Value) :
    ∃ c cs, v.json = c :: cs ∧ c ≠ ']' ∧ c ≠ '}' := by
  cases v with
  | undefined => exact ⟨'n', _, rfl, by decide, by decide⟩
  | null => exact ⟨'n', _, rfl, by decide, by decide⟩
  | bool b => cases b <;> exact ⟨_, _, rfl, by decide, by decide⟩
  | str s => exact ⟨'"', _, rfl, by decide, by decide⟩
  | arr xs => exact ⟨'[', _, rfl, by decide, by decide⟩
  | obj ms => exact ⟨'{', _, rfl, by decide, by decide⟩
  | num n =>
    cases n with
    | ofNat m =>
      have hne := toDigits_ne_nil m
      have hall := toDigits_isDigit m
      cases hD : Nat.toDigits 10 m with
      | nil => exact absurd hD hne
      | cons d ds =>
        rw [hD] at hall
        have hd : d.isDigit = true := hall d (List.mem_cons_self _ _)
        refine ⟨d, ds, ?_, ?_, ?_⟩
        · show (Nat.toDigits 10 m) = _
          exact hD
        · intro h; subst h; exact absurd hd (by decide)
        · intro h; subst h; exact absurd hd (by decide)
    | negSucc m => exact ⟨'-', _, rfl, by decide, by decide⟩

theorem json_length_pos (v : Value) : 1 ≤ v.json.length := by
  obtain ⟨c, cs, h, -, -⟩ := json_head v
  rw [h]
  simp


theorem noDigitHead_comma (t : List Char) : NoDigitHead (',' :: t) := by
  intro c hc
  simp at hc
  subst hc
  decide

theorem noDigitHead_bracket (t : List Char) : NoDigitHead (']' :: t) := by
  intro c hc
  simp at hc
  subst hc
  decide

theorem noDigitHead_brace (t : List Char) : NoDigitHead ('}' :: t) := by
  intro c hc
  simp at hc
  subst hc
  decide

theorem noDigitHead_elements (xs : Elements) (t : List Char) :
    NoDigitHead (Elements.json true xs ++ ']' :: t) := by
  cases xs with
  | nil => exact noDigitHead_bracket t
  | cons y ys =>
    simp only [Elements.json, if_true, List.append_assoc, List.cons_append, List.nil_append]
    exact noDigitHead_comma _

theorem noDigitHead_members (ms : Members) (hms : ms.plain = true) (t : List Char) :
    NoDigitHead (Members.json true ms ++ '}' :: t) := by
  cases ms with
  | nil => exact noDigitHead_brace t
  | cons k y ys =>
    have hy : y.plain = true := by
      simp [Members.plain] at hms; exact hms.1
    rw [Members.json_cons true k y ys hy]
    simp only [if_true, List.append_assoc, List.cons_append, List.nil_append]
    exact noDigitHead_comma _

/-- The reader gives back what the printer printed, fuel permitting. -/
theorem read_json (fuel : Nat) :
    (∀ (v : Value) (rest : List Char), v.plain = true → v.json.length ≤ fuel →
      NoDigitHead rest → readValue fuel (v.json ++ rest) = some (v, rest)) ∧
    (∀ (x : Value) (xs : Elements) (rest : List Char), x.plain = true → xs.plain = true →
      x.json.length + (Elements.json true xs).length + 1 ≤ fuel →
      readElements fuel (x.json ++ (Elements.json true xs ++ ']' :: rest)) =
        some (.cons x xs, rest)) ∧
    (∀ (k : String) (x : Value) (ms : Members) (rest : List Char),
      x.plain = true → ms.plain = true →
      x.json.length + (Members.json true ms).length + 1 ≤ fuel →
      readMembers fuel (quote k ++ ':' :: (x.json ++ (Members.json true ms ++ '}' :: rest))) =
        some (.cons k x ms, rest)) := by
  induction fuel with
  | zero =>
    refine ⟨?_, ?_, ?_⟩
    · intro v rest _ hlen _
      have := json_length_pos v
      omega
    · intro x xs rest _ _ hlen
      omega
    · intro k x ms rest _ _ hlen
      omega
  | succ fuel ih =>
    obtain ⟨ihV, ihE, ihM⟩ := ih
    refine ⟨?_, ?_, ?_⟩
    · intro v rest hv hlen hrest
      cases v with
      | undefined => simp [Value.plain] at hv
      | null => simp [Value.json, readValue]
      | bool b => cases b <;> simp [Value.json, readValue]
      | num n => exact readValue_num fuel n rest hrest
      | str s =>
        simp [Value.json, readValue, quote, readString_quote]
      | arr xs =>
        cases xs with
        | nil => simp [Value.json, Elements.json, readValue]
        | cons x xs =>
          have hx : x.plain = true := by
            simp [Value.plain, Elements.plain] at hv; exact hv.1
          have hxs : xs.plain = true := by
            simp [Value.plain, Elements.plain] at hv; exact hv.2
          obtain ⟨c, cs, hc, hc1, -⟩ := json_head x
          have hE := ihE x xs rest hx hxs (by
            simp [Value.json, Elements.json] at hlen
            omega)
          have htext : (Value.arr (.cons x xs)).json ++ rest =
              '[' :: (x.json ++ (Elements.json true xs ++ ']' :: rest)) := by
            simp [Value.json, Elements.json]
          rw [htext]
          have hhead : (x.json ++ (Elements.json true xs ++ ']' :: rest)).head? ≠ some ']' := by
            rw [hc]
            simpa using hc1
          generalize x.json ++ (Elements.json true xs ++ ']' :: rest) = text at hhead hE
          simp only [readValue]
          simp [hhead, hE]
      | obj ms =>
        cases ms with
        | nil => simp [Value.json, Members.json, readValue]
        | cons k x ms =>
          have hx : x.plain = true := by
            simp [Value.plain, Members.plain] at hv; exact hv.1
          have hms : ms.plain = true := by
            simp [Value.plain, Members.plain] at hv; exact hv.2
          have htext : (Value.obj (.cons k x ms)).json ++ rest =
              '{' :: (quote k ++ ':' :: (x.json ++ (Members.json true ms ++ '}' :: rest))) := by
            simp [Value.json, Members.json_cons false k x ms hx]
          have hM := ihM k x ms rest hx hms (by
            simp [Value.json, Members.json_cons false k x ms hx, quote] at hlen
            omega)
          rw [htext]
          have hhead : (quote k ++ ':' :: (x.json ++ (Members.json true ms ++ '}' :: rest))).head? ≠
              some '}' := by
            simp [quote]
          generalize quote k ++ ':' :: (x.json ++ (Members.json true ms ++ '}' :: rest)) = text
            at hhead hM
          simp only [readValue]
          simp [hhead, hM]
    · intro x xs rest hx hxs hlen
      have hV := ihV x (Elements.json true xs ++ ']' :: rest) hx (by omega)
        (noDigitHead_elements xs rest)
      cases xs with
      | nil =>
        simp only [readElements, hV]
        simp [Elements.json]
      | cons y ys =>
        have hy : y.plain = true := by
          simp [Elements.plain] at hxs; exact hxs.1
        have hys : ys.plain = true := by
          simp [Elements.plain] at hxs; exact hxs.2
        have htail : Elements.json true (.cons y ys) ++ ']' :: rest =
            ',' :: (y.json ++ (Elements.json true ys ++ ']' :: rest)) := by
          simp [Elements.json]
        have hE := ihE y ys rest hy hys (by
          have := json_length_pos x
          simp [Elements.json] at hlen
          omega)
        rw [htail] at hV ⊢
        simp only [readElements, hV]
        simp [hE]
    · intro k x ms rest hx hms hlen
      have hV := ihV x (Members.json true ms ++ '}' :: rest) hx (by omega)
        (noDigitHead_members ms hms rest)
      have hk : readString (quoteChars k.data ++ '"' :: ':' ::
          (x.json ++ (Members.json true ms ++ '}' :: rest))) [] =
          some (k, ':' :: (x.json ++ (Members.json true ms ++ '}' :: rest))) := by
        rw [readString_quote]
        simp
      have hq : quote k ++ ':' :: (x.json ++ (Members.json true ms ++ '}' :: rest)) =
          '"' :: (quoteChars k.data ++ '"' :: ':' ::
            (x.json ++ (Members.json true ms ++ '}' :: rest))) := by
        simp [quote]
      rw [hq]
      cases ms with
      | nil =>
        simp only [readMembers, hk]
        simp only [Members.json, List.nil_append] at hV ⊢
        simp [hV]
      | cons l y ys =>
        have hy : y.plain = true := by
          simp [Members.plain] at hms; exact hms.1
        have hys : ys.plain = true := by
          simp [Members.plain] at hms; exact hms.2
        have htail : Members.json true (.cons l y ys) ++ '}' :: rest =
            ',' :: (quote l ++ ':' :: (y.json ++ (Members.json true ys ++ '}' :: rest))) := by
          rw [Members.json_cons true l y ys hy]
          simp
        have hM := ihM l y ys rest hy hys (by
          have := json_length_pos x
          have h2 := congrArg List.length htail
          simp [quote] at h2
          omega)
        rw [htail] at hV ⊢
        simp only [readMembers]
        rw [readString_quote]
        simp [hV, hM]


/-- A whole text that is the print of a plain value reads as that value. -/
theorem readValue_json (v : Value) (hv : v.plain = true) :
    readValue (v.json.length + 1) v.json = some (v, []) := by
  have h := (read_json (v.json.length + 1)).1 v [] hv (Nat.le_succ _)
    (by intro c hc; simp at hc)
  simpa using h

/-- The JSON codec gives back every event whose data is `undefined` or plain. -/
theorem jsonCodec_roundtrip (e : Event) (h : e.data = .undefined ∨ e.data.plain = true) :
    jsonCodec.parse (jsonCodec.stringify e) = some e := by
  obtain ⟨id, type, data, reply⟩ := e
  show jsonParse (jsonStringify _) = _
  rcases h with h | h
  · simp only at h
    subst h
    have hjson : (Event.toValue { id := id, type := type, data := .undefined, reply := reply }).json =
        (Value.obj (.cons "id" (.str id) (.cons "type" (.str type)
          (.cons "reply" (.bool reply) .nil)))).json := by
      simp [Event.toValue, Value.json, Members.json]
    have hread := readValue_json (Value.obj (.cons "id" (.str id) (.cons "type" (.str type)
      (.cons "reply" (.bool reply) .nil)))) (by simp [Value.plain, Members.plain])
    simp only [jsonParse, jsonStringify, hjson, hread]
    simp [Event.ofValue, Members.find, Value.truthy]
  · simp only at h
    have hread := readValue_json
      (Event.toValue { id := id, type := type, data := data, reply := reply })
      (by simp [Event.toValue, Value.plain, Members.plain, h])
    simp only [jsonParse, jsonStringify, hread]
    simp [Event.ofValue, Event.toValue, Members.find, Value.truthy]

/-- Every string is plain data. -/
theorem jsonCodec_roundtrip_string (id type data : String) (reply : Bool) :
    jsonCodec.parse (jsonCodec.stringify
        { id := id, type := type, data := .str data, reply := reply }) =
      some { id := id, type := type, data := .str data, reply := reply } :=
  jsonCodec_roundtrip _ (Or.inr rfl)

/-! ## The stream transport -/

theorem splitNN_ne_nil (x : List Char) : splitNN x ≠ [] := by
  match x with
  | [] => simp [splitNN]
  | [c] => simp [splitNN]
  | c :: d :: rest =>
    rw [splitNN]
    split
    · simp
    · split <;> simp

theorem splitNN_cons_cons (c d : Char) (rest : List Char) (h : ¬(c = '\n' ∧ d = '\n')) :
    ∃ seg segs, splitNN (d :: rest) = seg :: segs ∧
      splitNN (c :: d :: rest) = (c :: seg) :: segs := by
  cases hs : splitNN (d :: rest) with
  | nil => exact absurd hs (splitNN_ne_nil _)
  | cons seg segs =>
    refine ⟨seg, segs, rfl, ?_⟩
    rw [splitNN, if_neg h, hs]

theorem splitNN_newlines (rest : List Char) :
    splitNN ('\n' :: '\n' :: rest) = [] :: splitNN rest := by
  rw [splitNN]
  simp

theorem splitNN_single (n : Nat) :
    ∀ (z seg : List Char), z.length ≤ n → splitNN z = [seg] → seg = z := by
  induction n with
  | zero =>
    intro z seg hz h
    have : z = [] := List.length_eq_zero.mp (by omega)
    subst this
    simpa [splitNN] using h.symm
  | succ n ih =>
    intro z seg hz h
    match z, hz, h with
    | [], _, h => simpa [splitNN] using h.symm
    | [c], _, h => simpa [splitNN] using h.symm
    | c :: d :: rest, hz, h =>
      by_cases hnn : c = '\n' ∧ d = '\n'
      · obtain ⟨rfl, rfl⟩ := hnn
        rw [splitNN_newlines] at h
        have := splitNN_ne_nil rest
        simp at h
        exact absurd h.2 this
      · obtain ⟨seg', segs', h1, h2⟩ := splitNN_cons_cons c d rest hnn
        rw [h2] at h
        simp at h
        obtain ⟨hseg, hsegs⟩ := h
        subst hsegs
        have := ih (d :: rest) seg' (by simp at hz ⊢; omega) h1
        rw [← hseg, this]

theorem splitNN_append_aux (n : Nat) :
    ∀ (x y : List Char), x.length ≤ n →
      splitNN (x ++ y) = (splitNN x).dropLast ++ splitNN ((splitNN x).getLastD [] ++ y) := by
  induction n with
  | zero =>
    intro x y hx
    have : x = [] := List.length_eq_zero.mp (by omega)
    subst this
    simp [splitNN]
  | succ n ih =>
    intro x y hx
    match x, hx with
    | [], _ => simp [splitNN]
    | [c], _ => simp [splitNN]
    | c :: d :: rest, hx =>
      by_cases hnn : c = '\n' ∧ d = '\n'
      · obtain ⟨rfl, rfl⟩ := hnn
        have hrec := ih rest y (by simp at hx ⊢; omega)
        have hne := splitNN_ne_nil rest
        show splitNN ('\n' :: '\n' :: (rest ++ y)) = _
        rw [splitNN_newlines, splitNN_newlines, hrec]
        cases hS : splitNN rest with
        | nil => exact absurd hS hne
        | cons s ss => simp [List.dropLast, List.getLastD]
      · obtain ⟨seg, segs, h1, h2⟩ := splitNN_cons_cons c d rest hnn
        have hrec := ih (d :: rest) y (by simp at hx ⊢; omega)
        obtain ⟨seg', segs', k1, k2⟩ := splitNN_cons_cons c d (rest ++ y) hnn
        show splitNN (c :: d :: (rest ++ y)) = _
        rw [k2, h2]
        have hrec' : seg' :: segs' =
            (seg :: segs).dropLast ++ splitNN ((seg :: segs).getLastD [] ++ y) := by
          rw [← k1, ← h1]
          exact hrec
        cases segs with
        | nil =>
          have hz : seg = d :: rest := splitNN_single _ _ _ (Nat.le_refl _) h1
          subst hz
          simp only [List.dropLast, List.getLastD, List.nil_append]
          show _ = splitNN (c :: d :: (rest ++ y))
          rw [k2]
        | cons s2 ss =>
          simp only [List.dropLast, List.getLastD, List.cons_append] at hrec' ⊢
          injection hrec' with e1 e2
          rw [e1, e2]
          simp [List.getLastD]

theorem splitNN_append (x y : List Char) :
    splitNN (x ++ y) = (splitNN x).dropLast ++ splitNN ((splitNN x).getLastD [] ++ y) :=
  splitNN_append_aux x.length x y (Nat.le_refl _)

theorem noSeparator_nil : NoSeparator [] := by
  intro h
  have := List.IsInfix.length_le h
  simp at this

theorem noSeparator_single (c : Char) : NoSeparator [c] := by
  intro h
  have := List.IsInfix.length_le h
  simp at this

theorem noSeparator_cons (c : Char) (seg : List Char) (hseg : NoSeparator seg)
    (hhead : ¬(c = '\n' ∧ seg.head? = some '\n')) : NoSeparator (c :: seg) := by
  intro h
  obtain ⟨s, t, hst⟩ := h
  cases s with
  | nil =>
    simp at hst
    apply hhead
    obtain ⟨h1, h2⟩ := hst
    exact ⟨h1.symm, by rw [← h2]; rfl⟩
  | cons a s' =>
    simp at hst
    exact hseg ⟨s', t, by simpa using hst.2⟩

theorem splitNN_head (d : Char) (rest : List Char) :
    ∀ seg segs, splitNN (d :: rest) = seg :: segs →
      (seg = [] ∧ d = '\n') ∨ seg.head? = some d := by
  intro seg segs h
  cases rest with
  | nil =>
    simp [splitNN] at h
    right
    rw [← h.1]; rfl
  | cons e rest' =>
    by_cases hnn : d = '\n' ∧ e = '\n'
    · obtain ⟨rfl, rfl⟩ := hnn
      rw [splitNN_newlines] at h
      left
      simp at h
      exact ⟨h.1, rfl⟩
    · obtain ⟨seg', segs', -, h2⟩ := splitNN_cons_cons d e rest' hnn
      rw [h2] at h
      right
      simp at h
      rw [← h.1]; rfl

/-- No segment of `split("\n\n")` has the separator in it. -/
theorem splitNN_noSeparator (n : Nat) :
    ∀ (x : List Char), x.length ≤ n → ∀ seg ∈ splitNN x, NoSeparator seg := by
  induction n with
  | zero =>
    intro x hx seg hseg
    have : x = [] := List.length_eq_zero.mp (by omega)
    subst this
    simp [splitNN] at hseg
    subst hseg
    exact noSeparator_nil
  | succ n ih =>
    intro x hx seg hseg
    match x, hx, hseg with
    | [], _, hseg =>
      simp [splitNN] at hseg
      subst hseg
      exact noSeparator_nil
    | [c], _, hseg =>
      simp [splitNN] at hseg
      subst hseg
      exact noSeparator_single c
    | c :: d :: rest, hx, hseg =>
      by_cases hnn : c = '\n' ∧ d = '\n'
      · obtain ⟨rfl, rfl⟩ := hnn
        rw [splitNN_newlines] at hseg
        rcases List.mem_cons.mp hseg with rfl | hmem
        · exact noSeparator_nil
        · exact ih rest (by simp at hx ⊢; omega) seg hmem
      · obtain ⟨seg', segs', h1, h2⟩ := splitNN_cons_cons c d rest hnn
        have hall := ih (d :: rest) (by simp at hx ⊢; omega)
        rw [h1] at hall
        rw [h2] at hseg
        rcases List.mem_cons.mp hseg with rfl | hmem
        · apply noSeparator_cons c seg' (hall seg' (List.mem_cons_self _ _))
          rintro ⟨hc, hh⟩
          rcases splitNN_head d rest seg' segs' h1 with ⟨hnil, -⟩ | hd
          · rw [hnil] at hh; cases hh
          · rw [hd] at hh
            exact hnn ⟨hc, by injection hh⟩
        · exact hall seg (List.mem_cons_of_mem _ hmem)

theorem getLastD_mem (l : List (List Char)) (h : l ≠ []) : l.getLastD [] ∈ l := by
  induction l with
  | nil => exact absurd rfl h
  | cons a as ih =>
    cases as with
    | nil => simp [List.getLastD]
    | cons b bs =>
      have := ih (by simp)
      simp only [List.getLastD] at this ⊢
      exact List.mem_cons_of_mem _ this

/-- The last segment has no separator in it. -/
theorem lastSegment_noSeparator (x : List Char) : NoSeparator ((splitNN x).getLastD []) :=
  splitNN_noSeparator x.length x (Nat.le_refl _) _ (getLastD_mem _ (splitNN_ne_nil x))

theorem forEachLine_spec (queryId : String → Option String) (n : Nat) :
    ∀ (lines : List String) (i : Nat) (r : Response), i + lines.length = n → lines ≠ [] →
      forEachLine queryId n i lines r =
        { lines.dropLast.foldl (fun r l => onmessage queryId r (unwrap l)) r with
          buffer := lines.getLastD "" } := by
  intro lines
  induction lines with
  | nil => intro i r _ h; exact absurd rfl h
  | cons line rest ih =>
    intro i r hn _
    cases rest with
    | nil =>
      have hi : ¬ i < n - 1 := by simp at hn; omega
      simp [forEachLine, hi]
    | cons l2 ls =>
      have hi : i < n - 1 := by simp at hn; omega
      have := ih (i + 1) (onmessage queryId r (unwrap line)) (by simp at hn ⊢; omega) (by simp)
      rw [forEachLine, if_pos hi, this]
      simp [List.dropLast, List.getLastD]

theorem deliver_append (queryId : String → Option String) (r : Response)
    (a b : List (List Char)) :
    deliver queryId r (a ++ b) = deliver queryId (deliver queryId r a) b := by
  simp [deliver, List.foldl_append]

theorem onmessage_buffer (queryId : String → Option String) (r : Response) (b data : String) :
    onmessage queryId { r with buffer := b } data =
      { onmessage queryId r data with buffer := b } := by
  unfold onmessage
  dsimp only
  split <;> rfl

theorem deliver_buffer (queryId : String → Option String) (segs : List (List Char)) :
    ∀ (r : Response) (b : String),
      deliver queryId { r with buffer := b } segs = { deliver queryId r segs with buffer := b } := by
  induction segs with
  | nil => intro r b; rfl
  | cons s ss ih =>
    intro r b
    simp only [deliver, List.foldl_cons] at ih ⊢
    rw [onmessage_buffer, ih]

theorem dropLast_map_mk (segs : List (List Char)) :
    (segs.map String.mk).dropLast = segs.dropLast.map String.mk := by
  induction segs with
  | nil => rfl
  | cons s ss ih =>
    cases ss with
    | nil => rfl
    | cons s2 ss2 =>
      simp only [List.map_cons, List.dropLast] at ih ⊢
      rw [ih]

theorem getLastD_map_mk (segs : List (List Char)) :
    (segs.map String.mk).getLastD "" = ⟨segs.getLastD []⟩ := by
  induction segs with
  | nil => rfl
  | cons s ss ih =>
    cases ss with
    | nil => rfl
    | cons s2 ss2 => simpa [List.getLastD] using ih

theorem getLastD_append_cons (a : List (List Char)) (s : List Char) (ss : List (List Char)) :
    (a ++ s :: ss).getLastD [] = (s :: ss).getLastD [] := by
  induction a with
  | nil => rfl
  | cons x xs ih =>
    cases xs with
    | nil => simp [List.getLastD]
    | cons y ys =>
      simp [List.getLastD]

/-- A chunk that is not all white space: the `data` listener goes through the buffer followed
by the stripped chunk. -/
theorem onData_eq (queryId : String → Option String) (r : Response) (chunk : String)
    (h : stripLeft chunk ≠ "") :
    onData queryId r chunk = after queryId r (r.buffer.data ++ (stripLeft chunk).data) := by
  unfold onData
  simp only [h, if_false]
  have hne : split (r.buffer ++ stripLeft chunk) ≠ [] := by
    simp [split, splitNN_ne_nil]
  rw [forEachLine_spec queryId _ _ 0 r (by simp) hne]
  unfold after deliver split
  simp only [String.data_append]
  rw [dropLast_map_mk, List.foldl_map, getLastD_map_mk]

theorem after_after (queryId : String → Option String) (r : Response) (x y : List Char) :
    after queryId (after queryId r x) ((after queryId r x).buffer.data ++ y) =
      after queryId r (x ++ y) := by
  have hb : (after queryId r x).buffer.data = (splitNN x).getLastD [] := rfl
  rw [hb]
  unfold after
  rw [splitNN_append x y]
  have hne := splitNN_ne_nil ((splitNN x).getLastD [] ++ y)
  rw [List.dropLast_append_of_ne_nil _ hne, deliver_append, deliver_buffer]
  cases hS : splitNN ((splitNN x).getLastD [] ++ y) with
  | nil => exact absurd hS hne
  | cons s ss => rw [getLastD_append_cons]

theorem stripLeft_id (chunk : String) (h : ∀ x ∈ chunk.data.head?, isSpace x = false) :
    stripLeft chunk = chunk := by
  obtain ⟨cs⟩ := chunk
  unfold stripLeft
  cases cs with
  | nil => rfl
  | cons c cs =>
    have : isSpace c = false := h c rfl
    simp [List.dropWhile, this]

theorem join_data (chunks : List String) :
    ∀ acc : String, (chunks.foldl (fun r s => r ++ s) acc).data =
      acc.data ++ (chunks.map String.data).flatten := by
  induction chunks with
  | nil => intro acc; simp
  | cons c cs ih => intro acc; simp [ih, String.data_append]

/-- Chunks that are neither empty nor begin with white space: feeding them goes through
their concatenation. -/
theorem feed_after (queryId : String → Option String) (chunks : List String)
    (h : ∀ c ∈ chunks, c ≠ "" ∧ ∀ x ∈ c.data.head?, isSpace x = false) :
    ∀ (r : Response) (x : List Char),
      feed queryId (after queryId r x) chunks =
        after queryId r (x ++ (chunks.map String.data).flatten) := by
  induction chunks with
  | nil => intro r x; simp [feed]
  | cons c cs ih =>
    intro r x
    obtain ⟨hne, hhead⟩ := h c (List.mem_cons_self _ _)
    have hstrip := stripLeft_id c hhead
    have hstep : onData queryId (after queryId r x) c = after queryId r (x ++ c.data) := by
      rw [onData_eq queryId _ c (by rw [hstrip]; exact hne), hstrip, after_after]
    have := ih (fun d hd => h d (List.mem_cons_of_mem _ hd)) r (x ++ c.data)
    simp only [feed, List.foldl_cons, hstep] at this ⊢
    rw [this]
    simp

theorem after_init (queryId : String → Option String) :
    after queryId Response.init [] = Response.init := rfl

theorem after_buffer (queryId : String → Option String) (r : Response) (x : List Char) :
    (after queryId r x).buffer.data = (splitNN x).getLastD [] := rfl

theorem onmessage_first (queryId : String → Option String) (r : Response) (data : String)
    (h : r.handshaked = false) :
    onmessage queryId r data =
      Response.notify { r with messages := r.messages ++ [data], handshaked := true,
                               id := queryId data } .open := by
  simp [onmessage, h, Response.notify]

theorem onmessage_later (queryId : String → Option String) (records : List String) :
    ∀ r : Response, r.handshaked = true →
      (records.foldl (onmessage queryId) r).emitted = r.emitted ++ records.map .text ∧
      (records.foldl (onmessage queryId) r).id = r.id ∧
      (records.foldl (onmessage queryId) r).messages = r.messages ++ records ∧
      (records.foldl (onmessage queryId) r).handshaked = true := by
  induction records with
  | nil => intro r h; simp [h]
  | cons d ds ih =>
    intro r h
    have h1 : onmessage queryId r d =
        { r with messages := r.messages ++ [d], emitted := r.emitted ++ [.text d] } := by
      simp [onmessage, h]
    obtain ⟨e1, e2, e3, e4⟩ := ih (onmessage queryId r d) (by rw [h1]; exact h)
    simp only [List.foldl_cons]
    refine ⟨?_, ?_, ?_, e4⟩
    · rw [e1, h1]; simp
    · rw [e2, h1]
    · rw [e3, h1]; simp

theorem onmessage_messages (queryId : String → Option String) (r : Response)
    (data : String) : (onmessage queryId r data).messages = r.messages ++ [data] := by
  unfold onmessage
  dsimp only
  split <;> rfl

theorem foldl_onmessage_messages {α : Type} (queryId : String → Option String)
    (f : α → String) (l : List α) :
    ∀ r : Response, (l.foldl (fun r s => onmessage queryId r (f s)) r).messages =
      r.messages ++ l.map f := by
  induction l with
  | nil => intro r; simp
  | cons s ss ih =>
    intro r
    simp only [List.foldl_cons, List.map_cons]
    rw [ih, onmessage_messages]
    simp

theorem dropLast_append_getLastD (segs : List (List Char)) (h : segs ≠ []) :
    segs.dropLast ++ [segs.getLastD []] = segs := by
  induction segs with
  | nil => exact absurd rfl h
  | cons s ss ih =>
    cases ss with
    | nil => rfl
    | cons s2 ss2 => exact congrArg (List.cons s) (ih (by simp))

theorem feed_init (queryId : String → Option String) (chunks : List String)
    (h : ∀ c ∈ chunks, c ≠ "" ∧ ∀ x ∈ c.data.head?, isSpace x = false) :
    feed queryId Response.init chunks =
      after queryId Response.init (chunks.map String.data).flatten := by
  have := feed_after queryId chunks h Response.init []
  rw [after_init] at this
  simpa using this

/-! ## The long-polling transport -/

namespace LongPoll

theorem transport_log_trace (t : Transport) (e : Effect) : (t.log e).trace = t.trace ++ [e] := rfl

theorem poll_trace (p : Platform) (uri : String) (t : Transport) :
    (poll p uri t).trace =
      t.trace ++ [.get (uri ++ "&when=poll&id=" ++ p.encodeURIComponent t.id)
        t.requests.length] := rfl

theorem isPollUrl_poll (uri suffix : String) :
    isPollUrl uri (uri ++ "&when=poll&id=" ++ suffix) = true := by
  simp [isPollUrl, String.data_append]

theorem noGap_append_quiet (uri : String) (e : Effect)
    (he : ∀ n, e = .emit n → n.payload = false) :
    ∀ (tr : List Effect) (b : Bool), noGap uri b tr = true → noGap uri b (tr ++ [e]) = true := by
  intro tr
  induction tr with
  | nil =>
    intro b _
    cases e with
    | emit n => simp [noGap, he n rfl]
    | get url k => simp [noGap]
    | close => simp [noGap]
    | abort k => simp [noGap]
    | throw x => simp [noGap]
  | cons a tr ih =>
    intro b h
    cases a with
    | emit n =>
      simp only [List.cons_append, noGap, Bool.and_eq_true] at h ⊢
      exact ⟨h.1, ih _ h.2⟩
    | get url k => exact ih _ h
    | close => exact ih _ h
    | abort k => exact ih _ h
    | throw x => exact ih _ h

theorem noGap_append_poll (uri url : String) (k : Nat) (n : Notification)
    (hurl : isPollUrl uri url = true) :
    ∀ (tr : List Effect) (b : Bool), noGap uri b tr = true →
      noGap uri b (tr ++ [.get url k, .emit n]) = true := by
  intro tr
  induction tr with
  | nil => intro b _; simp [noGap, hurl]
  | cons a tr ih =>
    intro b h
    cases a with
    | emit m =>
      simp only [List.cons_append, noGap, Bool.and_eq_true] at h ⊢
      exact ⟨h.1, ih _ h.2⟩
    | get url' k' => exact ih _ h
    | close => exact ih _ h
    | abort k' => exact ih _ h
    | throw x => exact ih _ h

theorem dispatch_trace (p : Platform) (t : Transport) (contentType : Option String)
    (body : Bytes) :
    (dispatch p t contentType body).trace =
      t.trace ++
        (if toLowerCase (contentType.getD "") ∈ textTypes then [.emit (.text (p.utf8 body))]
         else if toLowerCase (contentType.getD "") = "application/octet-stream" then
           [.emit (.binary body)]
         else [.emit (.error .protocol), .close]) := by
  unfold dispatch
  split
  · rfl
  · split
    · rfl
    · simp [Transport.log]

/-- The `end` of the response of a poll request, on a response that has not ended. -/
theorem onEnd_poll (p : Platform) (uri : String) (t : Transport) (r : Nat) (q : Req)
    (res : Res) (hq : t.requests[r]? = some q) (hkind : q.kind = .poll)
    (hres : q.res = some res) (hended : res.ended = false) :
    (onEnd p uri t r).trace =
      t.trace ++
        (if res.chunks = [] then [.emit .close]
         else
           .get (uri ++ "&when=poll&id=" ++ p.encodeURIComponent t.id) t.requests.length ::
             (if toLowerCase (res.contentType.getD "") ∈ textTypes then
                [.emit (.text (p.utf8 res.chunks.flatten))]
              else if toLowerCase (res.contentType.getD "") = "application/octet-stream" then
                [.emit (.binary res.chunks.flatten)]
              else [.emit (.error .protocol), .close])) := by
  unfold onEnd
  simp only [hq, hres, hended, hkind]
  by_cases hc : res.chunks = []
  · simp [hc, Transport.log, Transport.setReq]
  · have hlen : res.chunks.length ≠ 0 := by
      intro h; exact hc (List.length_eq_zero.mp h)
    simp only [Bool.false_eq_true, if_false, hlen, ne_eq, not_false_eq_true, if_true, hc]
    rw [dispatch_trace, poll_trace]
    simp [Transport.setReq]

/-- The `end` of the response of the request made by `connect`. -/
theorem onEnd_open (p : Platform) (uri : String) (t : Transport) (r : Nat) (q : Req)
    (res : Res) (hq : t.requests[r]? = some q) (hkind : q.kind = .open)
    (hres : q.res = some res) (hended : res.ended = false) :
    (onEnd p uri t r).trace =
      t.trace ++
        [.get (uri ++ "&when=poll&id=" ++ p.encodeURIComponent (p.queryId res.body))
           t.requests.length, .emit .open] := by
  unfold onEnd
  simp only [hq, hres, hended, hkind]
  simp [Transport.log, poll_trace, Transport.setReq]

/-- Every step keeps the trace free of gaps. -/
theorem step_noGap (p : Platform) (uri : String) (t : Transport) (i : Input)
    (h : noGap uri false t.trace = true) : noGap uri false (step p uri t i).trace = true := by
  cases i with
  | connect =>
    exact noGap_append_quiet uri _ (fun n hn => by cases hn) _ _ h
  | abort =>
    simp only [step, abort]
    split
    · exact noGap_append_quiet uri _ (fun n hn => by cases hn) _ _ h
    · split
      · exact noGap_append_quiet uri _ (fun n hn => by cases hn) _ _ h
      · exact h
  | response r ct =>
    simp only [step, onResponse]
    split
    · split
      · exact h
      · exact h
    · exact h
  | data r chunk =>
    simp only [step, onData]
    split
    · split
      · split
        · exact h
        · split <;> exact h
      · exact h
    · exact h
  | «end» r =>
    simp only [step]
    cases hq : t.requests[r]? with
    | none => simp only [onEnd, hq]; exact h
    | some q =>
      cases hres : q.res with
      | none => simp only [onEnd, hq, hres]; exact h
      | some res =>
        cases hended : res.ended with
        | true => simp only [onEnd, hq, hres, hended, if_true]; exact h
        | false =>
          cases hkind : q.kind with
          | «open» =>
            rw [onEnd_open p uri t r q res hq hkind hres hended]
            exact noGap_append_poll uri _ _ _ (isPollUrl_poll uri _) _ _ h
          | poll =>
            rw [onEnd_poll p uri t r q res hq hkind hres hended]
            split
            · exact noGap_append_quiet uri _ (fun n hn => by cases hn; rfl) _ _ h
            · split
              · exact noGap_append_poll uri _ _ _ (isPollUrl_poll uri _) _ _ h
              · split
                · exact noGap_append_poll uri _ _ _ (isPollUrl_poll uri _) _ _ h
                · have h1 := noGap_append_poll uri _ t.requests.length
                    (.error .protocol) (isPollUrl_poll uri (p.encodeURIComponent t.id)) _ _ h
                  have h2 := noGap_append_quiet uri .close (fun n hn => by cases hn) _ _ h1
                  simpa using h2
  | resError r e =>
    simp only [step, onResError]
    split
    · split
      · exact noGap_append_quiet uri _ (fun n hn => by cases hn; rfl) _ _ h
      · exact h
    · exact h
  | reqError r e =>
    simp only [step, onReqError]
    split
    · split
      · exact noGap_append_quiet uri _ (fun n hn => by cases hn; rfl) _ _ h
      · exact noGap_append_quiet uri _ (fun n hn => by cases hn; rfl) _ _ h
    · exact h
  | reqClose r =>
    simp only [step, onReqClose]
    split
    · exact noGap_append_quiet uri _ (fun n hn => by cases hn; rfl) _ _ h
    · exact h

theorem run_noGap (p : Platform) (uri : String) (inputs : List Input) :
    ∀ t : Transport, noGap uri false t.trace = true →
      noGap uri false (run p uri t inputs).trace = true := by
  induction inputs with
  | nil => intro t h; exact h
  | cons i is ih => intro t h; exact ih _ (step_noGap p uri t i h)

end LongPoll

/-! ## Claims -/

/-- C1 (reply latch).  For an inbound event with `reply = true`, whatever the non-empty
sequence of invocations of its two controllers, the socket writes exactly one payload after
the dispatch: the event of type `reply` whose data is `{id, data, exception}` with the id of
the inbound event, the value of the first invocation and `exception` true exactly when the
first invocation was `reject`.  The controllers are those handed over with the dispatch. -/
theorem reply_latch (codec : Codec) (s : Socket) (text : String) (event : Event)
    (first : Bool × Value) (later : List (Bool × Value))
    (hparse : codec.parse text = some event) (hreply : event.reply = true) :
    (∃ rest, (step codec s (.text text)).trace =
        s.trace ++
          .emit event.type [.value event.data, .controller s.latches.length] :: rest) ∧
    (run codec (step codec s (.text text))
        ((first :: later).map (invocation s.latches.length))).trace =
      (step codec s (.text text)).trace ++
        [.transportSend (codec.stringify
          { id := toString (step codec s (.text text)).eventId, type := "reply",
            data := envelope event.id first.2 (!first.1), reply := false })] := by
  have hstep : step codec s (.text text) = onText codec s text := rfl
  have hlat := onText_latches codec s text event hparse hreply
  have hget : (onText codec s text).latches[s.latches.length]? =
      some { event := event, latch := false } := by
    rw [hlat]; simp
  rw [hstep]
  constructor
  · simp only [onText, hparse, hreply, Bool.not_true, Bool.false_eq_true, if_false]
    exact emit_trace codec _ _ _
  · obtain ⟨htr, hset⟩ := controller_open codec (onText codec s text) s.latches.length _
      first.1 first.2 hget rfl
    have h1 : step codec (onText codec s text) (invocation s.latches.length first) =
        controller codec (onText codec s text) s.latches.length first.1 first.2 := by
      unfold invocation
      split
      · rename_i h; simp [step, h]
      · rename_i h; simp [step, h]
    simp only [List.map_cons, run, List.foldl_cons, h1]
    have h2 := run_invocations_latched codec s.latches.length _ rfl later _ hset
    simp only [run] at h2
    rw [h2, htr]

/-- Witness of C1 on the JSON codec: an inbound event `test` with id `5` that requires a
reply, answered by `resolve(1)`, then `reject(null)`, then `resolve("x")`. -/
theorem reply_latch_witness :
    jsonCodec.parse sampleRequest =
        some { id := "5", type := "test", data := .num 1, reply := true } ∧
    (run jsonCodec (step jsonCodec (createSocket defaultOptions)
        (.text sampleRequest))
        [.resolve 0 (.num 1), .reject 0 .null, .resolve 0 (.str "x")]).trace =
      (step jsonCodec (createSocket defaultOptions)
        (.text sampleRequest)).trace ++
        [.transportSend (jsonCodec.stringify
          { id := "0", type := "reply", data := envelope "5" (.num 1) false,
            reply := false })] :=
  ⟨by decide,
   (reply_latch jsonCodec (createSocket defaultOptions)
      sampleRequest
      { id := "5", type := "test", data := .num 1, reply := true }
      (true, .num 1) [(false, .null), (true, .str "x")] (by decide) rfl).2⟩

/-- C2 (stream reassembly), evaluated where it fails.  The two chunks `"data: A"` and
`"\n\ndata: B\n\n"` make up the input `"data: A\n\ndata: B\n\n"`, cut just before the first
terminator.  The `data` handler strips the white space that starts the second chunk, so that
the terminator is lost: the record handler is called once, with `"Adata: B"`, instead of with
`"A"` and then `"B"`. -/
theorem stream_cut_before_terminator (queryId : String → Option String) :
    "data: A" ++ "\n\ndata: B\n\n" = "data: A\n\ndata: B\n\n" ∧
    (feed queryId Response.init ["data: A\n\ndata: B\n\n"]).messages = ["A", "B"] ∧
    (feed queryId Response.init ["data: A", "\n\ndata: B\n\n"]).messages = ["Adata: B"] ∧
    (feed queryId Response.init ["data: A", "\n\ndata: B\n\n"]).messages ≠ ["A", "B"] := by
  refine ⟨by decide, rfl, rfl, ?_⟩
  intro h
  have h' : (feed queryId Response.init ["data: A", "\n\ndata: B\n\n"]).messages =
      ["Adata: B"] := rfl
  rw [h'] at h
  exact absurd h (by decide)

/-- C5 (`send`).  The event built by `send` has `reply = true` exactly when one of the two
callbacks is given.  When it has, `{resolved, rejected}` is stored under the id of the event
before the payload is written, and the two are all that `send` does; when it has not, the
write is all that `send` does and `callbacks` is as before. -/
theorem send_reply_flag (codec : Codec) (s : Socket) (type : String) (data : Value)
    (resolved rejected : Option Fn) :
    ∃ event : Event,
      event = { id := toString s.eventId, type := type, data := data,
                reply := resolved.isSome || rejected.isSome } ∧
      (send codec s type data resolved rejected).sent = s.sent ++ [event] ∧
      (event.reply = true ↔ (resolved ≠ none ∨ rejected ≠ none)) ∧
      ((event.reply = true ∧
          (send codec s type data resolved rejected).trace =
            s.trace ++ [.store event.id { resolved := resolved, rejected := rejected },
              .transportSend (codec.stringify event)] ∧
          (send codec s type data resolved rejected).callbacks.lookup event.id =
            some { resolved := resolved, rejected := rejected }) ∨
       (event.reply = false ∧
          (send codec s type data resolved rejected).trace =
            s.trace ++ [.transportSend (codec.stringify event)] ∧
          (send codec s type data resolved rejected).callbacks = s.callbacks)) := by
  refine ⟨_, rfl, ?_, ?_, ?_⟩
  · unfold send
    dsimp only
    split <;> rfl
  · cases resolved <;> cases rejected <;> simp
  · by_cases h : (resolved.isSome || rejected.isSome) = true
    · left
      refine ⟨h, ?_, ?_⟩
      · simp [send, h]
      · simp [send, h, List.lookup]
    · right
      refine ⟨by simpa using h, ?_, ?_⟩
      · simp [send, h]
      · simp [send, h]

/-- C3 (plain exchange).  Let `payload` be what `send(type, data)`, called without
callbacks, writes to the transport, and let the JSON functions give the event back from it.
Delivered to the `text` listener of a socket, `payload` is dispatched by exactly one call of
`emit`, under the name `type`, with `data` as its only argument: no controller is handed
over and no latch is created. -/
theorem send_dispatch (codec : Codec) (s r : Socket) (type : String) (data : Value)
    (hround : codec.parse (codec.stringify
        { id := toString s.eventId, type := type, data := data, reply := false }) =
      some { id := toString s.eventId, type := type, data := data, reply := false }) :
    ∃ payload,
      (send codec s type data none none).trace = s.trace ++ [.transportSend payload] ∧
      emits (step codec r (.text payload)).trace = emits r.trace ++ [(type, [.value data])] ∧
      (step codec r (.text payload)).latches = r.latches ∧
      ∃ rest, (step codec r (.text payload)).trace =
        r.trace ++ .emit type [.value data] :: rest := by
  refine ⟨_, send_plain_trace codec s type data, ?_, ?_, ?_⟩
  · simp only [step, onText, hround, Bool.not_false, if_true]
    exact emit_emits codec r type _
  · simp only [step, onText, hround, Bool.not_false, if_true]
    exact emit_latches codec r type _
  · simp only [step, onText, hround, Bool.not_false, if_true]
    exact emit_trace codec r type _

/-- Witness of C3 on the JSON codec: `send("echo", "data")`. -/
theorem send_dispatch_witness :
    jsonCodec.parse (jsonCodec.stringify
        { id := toString (createSocket defaultOptions).eventId, type := "echo",
          data := .str "data", reply := false }) =
      some { id := toString (createSocket defaultOptions).eventId, type := "echo",
             data := .str "data", reply := false } ∧
    ∃ payload,
      (send jsonCodec (createSocket defaultOptions) "echo" (.str "data") none none).trace =
        (createSocket defaultOptions).trace ++ [.transportSend payload] ∧
      emits (step jsonCodec (createSocket defaultOptions) (.text payload)).trace =
        emits (createSocket defaultOptions).trace ++ [("echo", [.value (.str "data")])] ∧
      (step jsonCodec (createSocket defaultOptions) (.text payload)).latches =
        (createSocket defaultOptions).latches ∧
      ∃ rest, (step jsonCodec (createSocket defaultOptions) (.text payload)).trace =
        (createSocket defaultOptions).trace ++ .emit "echo" [.value (.str "data")] :: rest :=
  ⟨by decide,
   send_dispatch jsonCodec (createSocket defaultOptions) (createSocket defaultOptions)
     "echo" (.str "data") (by decide)⟩

/-- C4 (event ids).  Whatever happens to a socket after its creation, what it has written
is the handshake followed by the JSON text of the events built by `send` (for the
application, for a controller or for a heartbeat alike); the event number `k`, counting
from 0, has the decimal text of `k` for id, and no two of the events have the same id.  The
counter `eventId` is a natural number here. -/
theorem event_ids (codec : Codec) (options : Options) (inputs : List Input) :
    writes (run codec (createSocket options) inputs).trace =
        handshake options :: (run codec (createSocket options) inputs).sent.map codec.stringify ∧
    (run codec (createSocket options) inputs).sent.map (fun e => e.id) =
        (List.range (run codec (createSocket options) inputs).sent.length).map toString ∧
    ((run codec (createSocket options) inputs).sent.map (fun e => e.id)).Nodup := by
  obtain ⟨h1, h2⟩ := run_wire inputs (createSocket_wire codec options)
  have hlen : (run codec (createSocket options) inputs).sent.length =
      (run codec (createSocket options) inputs).eventId := by
    have := congrArg List.length h2
    simpa using this
  refine ⟨h1, ?_, ?_⟩
  · rw [hlen]; exact h2
  · rw [h2]
    exact List.Nodup.map (fun a b h => toString_nat_inj h) (List.nodup_range _)

/-- C10 (handshake).  Creating a socket with the options `{heartbeat: h, _heartbeat: t}`
arms the heartbeat timer and writes one payload, the text `?heartbeat=h&_heartbeat=t`.
Whatever happens afterwards comes behind it in the trace: every call of `emit`, and every
further write, each of which is the JSON text of an event built by `send`. -/
theorem handshake_first (codec : Codec) (h t : Nat) (inputs : List Input) :
    handshake { heartbeat := h, _heartbeat := t } =
        "?heartbeat=" ++ toString h ++ "&_heartbeat=" ++ toString t ∧
    (createSocket { heartbeat := h, _heartbeat := t }).trace =
        [.setTimeout 0 h, .transportSend (handshake { heartbeat := h, _heartbeat := t })] ∧
    ∃ rest,
      (run codec (createSocket { heartbeat := h, _heartbeat := t }) inputs).trace =
        [.setTimeout 0 h, .transportSend (handshake { heartbeat := h, _heartbeat := t })] ++
          rest ∧
      writes rest =
        (run codec (createSocket { heartbeat := h, _heartbeat := t }) inputs).sent.map
          codec.stringify ∧
      emits rest =
        emits (run codec (createSocket { heartbeat := h, _heartbeat := t }) inputs).trace := by
  have hcreate : (createSocket { heartbeat := h, _heartbeat := t }).trace =
      [.setTimeout 0 h, .transportSend (handshake { heartbeat := h, _heartbeat := t })] := rfl
  refine ⟨rfl, hcreate, ?_⟩
  obtain ⟨rest, hrest⟩ := run_trace_ext codec inputs (createSocket { heartbeat := h, _heartbeat := t })
  obtain ⟨h1, -⟩ := run_wire inputs (createSocket_wire codec { heartbeat := h, _heartbeat := t })
  rw [hcreate] at hrest
  refine ⟨rest, hrest, ?_, ?_⟩
  · rw [hrest] at h1
    simpa [writes_append, writes] using h1
  · rw [hrest]
    simp [emits_append, emits]

/-- C6 (inbound reply).  Let an inbound event of type `reply` carry an envelope whose id
has an entry `cbs` in `callbacks`.  Handling it emits `reply`, then calls the callback
selected by `exception` (`rejected` when it is true, `resolved` otherwise) once with the data
of the envelope if that callback was given, calls nothing else, and removes the entry, also
when no callback was called. -/
theorem reply_callback (codec : Codec) (s : Socket) (text : String) (event : Event)
    (id : Value) (cbs : Callbacks)
    (hparse : codec.parse text = some event) (htype : event.type = "reply")
    (hid : event.data.prop "id" = some id)
    (hentry : s.callbacks.lookup id.toKey = some cbs) :
    (step codec s (.text text)).trace =
        s.trace ++ .emit "reply" (dispatchArgs s event) ::
          ((selected event.data cbs).map
            (fun f => Effect.call id.toKey f ((event.data.prop "data").getD .undefined))).toList ∧
    (step codec s (.text text)).callbacks = s.callbacks.filter (fun p => p.1 ≠ id.toKey) ∧
    (step codec s (.text text)).callbacks.lookup id.toKey = none := by
  obtain ⟨s₀, h1, h2, -, h4⟩ := onText_parsed codec s text event hparse
  have hstep : step codec s (.text text) = onText codec s text := rfl
  rw [hstep, h4, htype]
  have hemit : emit codec s₀ "reply" (dispatchArgs s event) =
      onReply (s₀.log (.emit "reply" (dispatchArgs s event))) event.data := by
    simp [emit, firstValue_dispatchArgs]
  rw [hemit]
  obtain ⟨e1, e2, -⟩ := onReply_entry (s₀.log (.emit "reply" (dispatchArgs s event)))
    event.data id cbs hid (by simpa [h2] using hentry)
  refine ⟨?_, ?_, ?_⟩
  · rw [e1]; simp [h1]
  · rw [e2]; simp [h2]
  · rw [e2]; exact lookup_filter_self _ _

/-- Witness of C6 on the JSON codec: after `send("/reply/inbound", "x", f1, f2)`, which
stores `{resolved: f1, rejected: f2}` under the id `0`, the inbound reply
`{id: "0", data: 3, exception: true}` calls `f2` with `3` and removes the entry. -/
theorem reply_callback_witness :
    jsonCodec.parse
        sampleRejection =
      some { id := "9", type := "reply", data := envelope "0" (.num 3) true, reply := false } ∧
    (send jsonCodec (createSocket defaultOptions) "/reply/inbound" (.str "x")
        (some 1) (some 2)).callbacks.lookup "0" = some { resolved := some 1, rejected := some 2 } ∧
    (step jsonCodec
        (send jsonCodec (createSocket defaultOptions) "/reply/inbound" (.str "x") (some 1) (some 2))
        (.text
          sampleRejection)).trace =
      (send jsonCodec (createSocket defaultOptions) "/reply/inbound" (.str "x")
          (some 1) (some 2)).trace ++
        [.emit "reply" [.value (envelope "0" (.num 3) true)], .call "0" 2 (.num 3)] ∧
    (step jsonCodec
        (send jsonCodec (createSocket defaultOptions) "/reply/inbound" (.str "x") (some 1) (some 2))
        (.text
          sampleRejection)).callbacks.lookup
        "0" = none :=
  have h := reply_callback jsonCodec
    (send jsonCodec (createSocket defaultOptions) "/reply/inbound" (.str "x") (some 1) (some 2))
    sampleRejection
    { id := "9", type := "reply", data := envelope "0" (.num 3) true, reply := false }
    (.str "0") { resolved := some 1, rejected := some 2 } (by decide) rfl (by decide) (by decide)
  ⟨by decide, by decide, h.1, h.2.2⟩

/-- C7 (replies are one-shot).  Whatever the sequence of inputs of a socket, and so whatever
the inbound replies, the callbacks stored under one id by one `send` are called at most once
in all.  An inbound reply whose envelope id has no entry in `callbacks` is dispatched by its
emit and does nothing else: no callback is called, no error is emitted or thrown, and
`callbacks` is as before. -/
theorem reply_one_shot (codec : Codec) (options : Options) (inputs : List Input) :
    (∀ id, (calls id (run codec (createSocket options) inputs).trace).length ≤ 1) ∧
    ∀ (text : String) (event : Event) (id : Value),
      codec.parse text = some event → event.type = "reply" →
      event.data.prop "id" = some id →
      (run codec (createSocket options) inputs).callbacks.lookup id.toKey = none →
      (step codec (run codec (createSocket options) inputs) (.text text)).trace =
          (run codec (createSocket options) inputs).trace ++
            [.emit "reply" (dispatchArgs (run codec (createSocket options) inputs) event)] ∧
        (step codec (run codec (createSocket options) inputs) (.text text)).callbacks =
          (run codec (createSocket options) inputs).callbacks := by
  constructor
  · intro id
    obtain ⟨_, _, h3⟩ := run_pending codec inputs (createSocket_pending options)
    have := h3 id
    omega
  · intro text event id hparse htype hid hentry
    obtain ⟨s₀, h1, h2, -, h4⟩ :=
      onText_parsed codec (run codec (createSocket options) inputs) text event hparse
    have hstep : step codec (run codec (createSocket options) inputs) (.text text) =
        onText codec (run codec (createSocket options) inputs) text := rfl
    rw [hstep, h4, htype]
    have hemit : emit codec s₀ "reply"
          (dispatchArgs (run codec (createSocket options) inputs) event) =
        onReply (s₀.log (.emit "reply"
          (dispatchArgs (run codec (createSocket options) inputs) event))) event.data := by
      simp [emit, firstValue_dispatchArgs]
    rw [hemit, onReply_absent _ event.data id hid (by simpa [h2] using hentry)]
    simp [h1, h2]

/-- Witness of C7 on the JSON codec: `send("t", "x", f1)` stores a callback under the id
`0`; the reply `{id: "0", data: 3, exception: false}` is then delivered twice.  The callback
is called once, and the third delivery finds no entry. -/
theorem reply_one_shot_witness :
    calls "0" (run jsonCodec (createSocket defaultOptions)
        [.send "t" (.str "x") (some 1) none,
         .text sampleResolution,
         .text sampleResolution]).trace =
      [(1, .num 3)] ∧
    (calls "0" (run jsonCodec (createSocket defaultOptions)
        [.send "t" (.str "x") (some 1) none,
         .text sampleResolution,
         .text sampleResolution]).trace).length ≤ 1 ∧
    (step jsonCodec (run jsonCodec (createSocket defaultOptions)
        [.send "t" (.str "x") (some 1) none,
         .text sampleResolution,
         .text sampleResolution])
        (.text sampleResolution)).callbacks =
      (run jsonCodec (createSocket defaultOptions)
        [.send "t" (.str "x") (some 1) none,
         .text sampleResolution,
         .text sampleResolution]).callbacks :=
  have h := reply_one_shot jsonCodec defaultOptions
    [.send "t" (.str "x") (some 1) none,
     .text sampleResolution,
     .text sampleResolution]
  ⟨by decide, h.1 "0",
   (h.2 sampleResolution
      { id := "9", type := "reply", data := envelope "0" (.num 3) false, reply := false }
      (.str "0") (by decide) rfl (by decide) (by decide)).2⟩

/-- C8 (heartbeat expiry).  A socket is created with its heartbeat timer armed for
`options.heartbeat` milliseconds, and every inbound heartbeat it handles clears that timer
and arms a new one for the same interval.  When the timer held by `heartbeatTimer` falls due
while it is still pending, the socket emits the error `heartbeat` and closes its transport;
when the transport answers with its close notification, the socket emits `close` and clears
the timer.  Nothing else happens, no timer is left pending, and no later timer event has any
effect: one error, then one close. -/
theorem heartbeat_expiry (codec : Codec) (options : Options) (inputs : List Input) :
    ((createSocket options).timers = [0] ∧ (createSocket options).heartbeatTimer = 0 ∧
      (createSocket options).trace =
        [.setTimeout 0 options.heartbeat, .transportSend (handshake options)]) ∧
    (∀ (text : String) (event : Event),
      codec.parse text = some event → event.type = "heartbeat" →
      (step codec (run codec (createSocket options) inputs) (.text text)).trace =
          (run codec (createSocket options) inputs).trace ++
            [.emit "heartbeat" (dispatchArgs (run codec (createSocket options) inputs) event),
             .clearTimeout (run codec (createSocket options) inputs).heartbeatTimer,
             .setTimeout (run codec (createSocket options) inputs).nextTimer
               (run codec (createSocket options) inputs).options.heartbeat,
             .transportSend (codec.stringify
               { id := toString (run codec (createSocket options) inputs).eventId,
                 type := "heartbeat", data := .undefined, reply := false })] ∧
        (step codec (run codec (createSocket options) inputs) (.text text)).timers =
          [(run codec (createSocket options) inputs).nextTimer] ∧
        (step codec (run codec (createSocket options) inputs) (.text text)).heartbeatTimer =
          (run codec (createSocket options) inputs).nextTimer) ∧
    ((run codec (createSocket options) inputs).heartbeatTimer ∈
        (run codec (createSocket options) inputs).timers →
      (run codec (run codec (createSocket options) inputs)
          [.timeout (run codec (createSocket options) inputs).heartbeatTimer, .close]).trace =
        (run codec (createSocket options) inputs).trace ++
          [.emit "error" [.error "heartbeat"], .transportClose, .emit "close" [],
           .clearTimeout (run codec (createSocket options) inputs).heartbeatTimer] ∧
      (run codec (run codec (createSocket options) inputs)
          [.timeout (run codec (createSocket options) inputs).heartbeatTimer, .close]).timers =
        [] ∧
      ∀ t, step codec (run codec (run codec (createSocket options) inputs)
            [.timeout (run codec (createSocket options) inputs).heartbeatTimer, .close])
            (.timeout t) =
          run codec (run codec (createSocket options) inputs)
            [.timeout (run codec (createSocket options) inputs).heartbeatTimer, .close]) := by
  have ht := run_oneTimer codec inputs (createSocket_oneTimer options)
  refine ⟨⟨rfl, rfl, rfl⟩, ?_, ?_⟩
  · intro text event hparse htype
    exact onText_heartbeat ht codec text event hparse htype
  · intro hmem
    obtain ⟨e1, e2, e3⟩ := step_timeout ht codec hmem
    have ht1 : OneTimer (step codec (run codec (createSocket options) inputs)
        (.timeout (run codec (createSocket options) inputs).heartbeatTimer)) := Or.inl e2
    obtain ⟨c1, c2⟩ := step_close ht1 codec
    have hrun : run codec (run codec (createSocket options) inputs)
        [.timeout (run codec (createSocket options) inputs).heartbeatTimer, .close] =
        step codec (step codec (run codec (createSocket options) inputs)
          (.timeout (run codec (createSocket options) inputs).heartbeatTimer)) .close := rfl
    rw [hrun]
    refine ⟨?_, c2, ?_⟩
    · rw [c1, e1, e3]; simp
    · intro t
      exact step_timeout_idle codec _ t c2

/-- Witness of C8 on the JSON codec: a socket just created with the default options handles
a heartbeat, which arms the timer `1`; on a socket just created the timer `0` falls due. -/
theorem heartbeat_expiry_witness :
    jsonCodec.parse sampleHeartbeat =
        some { id := "3", type := "heartbeat", data := .undefined, reply := false } ∧
    (step jsonCodec (createSocket defaultOptions)
        (.text sampleHeartbeat)).trace =
      [.setTimeout 0 20000, .transportSend "?heartbeat=20000&_heartbeat=5000",
       .emit "heartbeat" [.value .undefined], .clearTimeout 0, .setTimeout 1 20000,
       .transportSend sampleAcknowledgement] ∧
    (createSocket defaultOptions).heartbeatTimer ∈ (createSocket defaultOptions).timers ∧
    (run jsonCodec (createSocket defaultOptions) [.timeout 0, .close]).trace =
      [.setTimeout 0 20000, .transportSend "?heartbeat=20000&_heartbeat=5000",
       .emit "error" [.error "heartbeat"], .transportClose, .emit "close" [],
       .clearTimeout 0] ∧
    (run jsonCodec (createSocket defaultOptions) [.timeout 0, .close]).timers = [] :=
  have h := heartbeat_expiry jsonCodec defaultOptions []
  ⟨by decide,
   (h.2.1 sampleHeartbeat
      { id := "3", type := "heartbeat", data := .undefined, reply := false }
      (by decide) rfl).1,
   by decide, (h.2.2 (by decide)).1, (h.2.2 (by decide)).2.1⟩

/-- C9, evaluated where it fails, on the JSON codec and a socket created with the default
options.  After the close notification of the transport, an inbound heartbeat still arms a
timer (the timer `1`, left pending) and writes its acknowledgement; and a second close
notification is emitted like the first. -/
theorem closed_socket_rearms :
    (run jsonCodec (createSocket defaultOptions) [.close]).trace =
      [.setTimeout 0 20000, .transportSend "?heartbeat=20000&_heartbeat=5000",
       .emit "close" [], .clearTimeout 0] ∧
    (run jsonCodec (createSocket defaultOptions)
        [.close, .text sampleHeartbeat]).trace =
      (run jsonCodec (createSocket defaultOptions) [.close]).trace ++
        [.emit "heartbeat" [.value .undefined], .clearTimeout 0, .setTimeout 1 20000,
         .transportSend sampleAcknowledgement] ∧
    (run jsonCodec (createSocket defaultOptions)
        [.close, .text sampleHeartbeat]).timers = [1] ∧
    emits (run jsonCodec (createSocket defaultOptions) [.close, .close]).trace =
      [("close", []), ("close", [])] := by
  decide

/-- C9 as amended.  The socket keeps no closed state.  Each close notification of the
transport makes it emit `close` once and clear the heartbeat timer, which leaves no timer
pending.  From then on, as long as no text is delivered and neither `send` nor a controller
is called, no timer is pending, no timer is armed and nothing is written to the transport. -/
theorem close_then_quiet (codec : Codec) (options : Options) (before after : List Input)
    (hquiet : ∀ i ∈ after, i.quiet = true) :
    (step codec (run codec (createSocket options) before) .close).trace =
        (run codec (createSocket options) before).trace ++
          [.emit "close" [],
           .clearTimeout (run codec (createSocket options) before).heartbeatTimer] ∧
    (step codec (run codec (createSocket options) before) .close).timers = [] ∧
    (run codec (step codec (run codec (createSocket options) before) .close) after).timers =
        [] ∧
    writes (run codec (step codec (run codec (createSocket options) before) .close)
        after).trace =
      writes (run codec (createSocket options) before).trace ∧
    armed (run codec (step codec (run codec (createSocket options) before) .close)
        after).trace =
      armed (run codec (createSocket options) before).trace := by
  have ht := run_oneTimer codec before (createSocket_oneTimer options)
  obtain ⟨c1, c2⟩ := step_close ht codec
  obtain ⟨q1, q2, q3⟩ := run_quiet codec after _ hquiet c2
  refine ⟨c1, c2, q1, ?_, ?_⟩
  · rw [q2, c1]; simp [writes_append, writes]
  · rw [q3, c1]; simp [armed_append, armed]

/-- Witness of C9 as amended: after a `send` and the close notification, an error and a
second close notification, a timer event and a call of `close` follow. -/
theorem close_then_quiet_witness :
    (∀ i ∈ [Input.error "reset", Input.close, Input.timeout 0, Input.closeCall],
      i.quiet = true) ∧
    (run jsonCodec (step jsonCodec (run jsonCodec (createSocket defaultOptions)
        [.send "echo" (.str "data") none none]) .close)
        [.error "reset", .close, .timeout 0, .closeCall]).timers = [] ∧
    writes (run jsonCodec (step jsonCodec (run jsonCodec (createSocket defaultOptions)
        [.send "echo" (.str "data") none none]) .close)
        [.error "reset", .close, .timeout 0, .closeCall]).trace =
      writes (run jsonCodec (createSocket defaultOptions)
        [.send "echo" (.str "data") none none]).trace :=
  have h := close_then_quiet jsonCodec defaultOptions [.send "echo" (.str "data") none none]
    [.error "reset", .close, .timeout 0, .closeCall] (by decide)
  ⟨by decide, h.2.2.1, h.2.2.2.1⟩

namespace LongPoll

theorem flatten_eq_nil (chunks : List Bytes) (h : ∀ c ∈ chunks, c ≠ []) :
    chunks.flatten = [] ↔ chunks = [] := by
  cases chunks with
  | nil => simp
  | cons c cs =>
    have := h c (List.mem_cons_self _ _)
    simp [this]

/-- C11 (a completed poll response).  Let the response of a poll request complete, every
chunk received being non-empty.  If the body is empty the transport only emits `close` and
makes no request.  Otherwise it makes the next poll request, and then: emits `text` with the
UTF-8 decoding of the body when the lower-cased `content-type` is one of the four
`text/plain` spellings, emits `binary` with the bytes of the body when it is
`application/octet-stream`, and for any other `content-type`, or none, emits the protocol
error and calls `close`. -/
theorem poll_response_classified (p : Platform) (uri : String) (t : Transport) (r : Nat)
    (q : Req) (res : Res) (hq : t.requests[r]? = some q) (hkind : q.kind = .poll)
    (hres : q.res = some res) (hended : res.ended = false)
    (hchunks : ∀ c ∈ res.chunks, c ≠ []) :
    (step p uri t (.end r)).trace =
      t.trace ++
        (if res.chunks.flatten = [] then [.emit .close]
         else
           .get (uri ++ "&when=poll&id=" ++ p.encodeURIComponent t.id) t.requests.length ::
             (if toLowerCase (res.contentType.getD "") ∈
                  ["text/plain; charset=utf-8", "text/plain; charset=utf8",
                   "text/plain;charset=utf-8", "text/plain;charset=utf8"] then
                [.emit (.text (p.utf8 res.chunks.flatten))]
              else if toLowerCase (res.contentType.getD "") = "application/octet-stream" then
                [.emit (.binary res.chunks.flatten)]
              else [.emit (.error .protocol), .close])) := by
  have h := onEnd_poll p uri t r q res hq hkind hres hended
  have hiff := flatten_eq_nil res.chunks hchunks
  show (onEnd p uri t r).trace = _
  rw [h]
  by_cases hc : res.chunks = []
  · rw [if_pos hc, if_pos (hiff.mpr hc)]
  · rw [if_neg hc, if_neg (fun e => hc (hiff.mp e))]
    rfl

/-- Witness of C11: after the handshake, the response of the poll request `1` arrives with
the header `Text/Plain; Charset=UTF-8` and the two chunks `h` and `i`; the transport makes
the request `2` and emits the text `hi`. -/
theorem poll_response_classified_witness :
    (step samplePlatform "http://localhost:8000/vibe?transport=longpoll"
        (run samplePlatform "http://localhost:8000/vibe?transport=longpoll" Transport.init
          [.connect, .response 0 none, .data 0 [63, 105, 100, 61, 97], .end 0,
           .response 1 (some "Text/Plain; Charset=UTF-8"), .data 1 [104], .data 1 [105]])
        (.end 1)).trace =
      (run samplePlatform "http://localhost:8000/vibe?transport=longpoll" Transport.init
          [.connect, .response 0 none, .data 0 [63, 105, 100, 61, 97], .end 0,
           .response 1 (some "Text/Plain; Charset=UTF-8"), .data 1 [104], .data 1 [105]]).trace ++
        [.get "http://localhost:8000/vibe?transport=longpoll&when=poll&id=a" 2,
         .emit (.text "hi")] :=
  poll_response_classified samplePlatform "http://localhost:8000/vibe?transport=longpoll"
    (run samplePlatform "http://localhost:8000/vibe?transport=longpoll" Transport.init
      [.connect, .response 0 none, .data 0 [63, 105, 100, 61, 97], .end 0,
       .response 1 (some "Text/Plain; Charset=UTF-8"), .data 1 [104], .data 1 [105]])
    1 { kind := .poll, aborted := false,
        res := some { contentType := some "Text/Plain; Charset=UTF-8", body := "",
                      chunks := [[104], [105]], ended := false } }
    { contentType := some "Text/Plain; Charset=UTF-8", body := "", chunks := [[104], [105]],
      ended := false }
    (by decide) rfl rfl rfl (by decide)

/-- C12 (no gap).  In every trace of a transport, each payload notification (`text`,
`binary`, protocol error) comes right after the making of a poll request.  When the response
of the poll request `r` completes with chunks received, the transport first makes a poll
request, whose number is above `r`, and only then emits the notification for the body. -/
theorem poll_before_dispatch (p : Platform) (uri : String) (inputs : List Input) (r : Nat)
    (q : Req) (res : Res) :
    noGap uri false (run p uri Transport.init inputs).trace = true ∧
    ((run p uri Transport.init inputs).requests[r]? = some q → q.kind = .poll →
      q.res = some res → res.ended = false → res.chunks ≠ [] →
      r < (run p uri Transport.init inputs).requests.length ∧
      (step p uri (run p uri Transport.init inputs) (.end r)).trace =
        (run p uri Transport.init inputs).trace ++
          .get (uri ++ "&when=poll&id=" ++
              p.encodeURIComponent (run p uri Transport.init inputs).id)
            (run p uri Transport.init inputs).requests.length ::
            (if toLowerCase (res.contentType.getD "") ∈ textTypes then
               [.emit (.text (p.utf8 res.chunks.flatten))]
             else if toLowerCase (res.contentType.getD "") = "application/octet-stream" then
               [.emit (.binary res.chunks.flatten)]
             else [.emit (.error .protocol), .close])) := by
  refine ⟨run_noGap p uri inputs Transport.init rfl, ?_⟩
  intro hq hkind hres hended hchunks
  constructor
  · rcases Nat.lt_or_ge r (run p uri Transport.init inputs).requests.length with h | h
    · exact h
    · rw [List.getElem?_eq_none h] at hq; cases hq
  · have h := onEnd_poll p uri _ r q res hq hkind hres hended
    show (onEnd p uri _ r).trace = _
    rw [h, if_neg hchunks]

/-- Witness of C12: the poll request `1` delivers the bytes `[1, 2]` as
`application/octet-stream`; the request `2` is made before `binary` is emitted. -/
theorem poll_before_dispatch_witness :
    (step samplePlatform "http://localhost:8000/vibe?transport=longpoll"
        (run samplePlatform "http://localhost:8000/vibe?transport=longpoll" Transport.init
          [.connect, .response 0 none, .data 0 [63, 105, 100, 61, 97], .end 0,
           .response 1 (some "application/octet-stream"), .data 1 [1, 2]])
        (.end 1)).trace =
      [.get "http://localhost:8000/vibe?transport=longpoll&when=open" 0,
       .get "http://localhost:8000/vibe?transport=longpoll&when=poll&id=a" 1,
       .emit .open,
       .get "http://localhost:8000/vibe?transport=longpoll&when=poll&id=a" 2,
       .emit (.binary [1, 2])] :=
  (poll_before_dispatch samplePlatform "http://localhost:8000/vibe?transport=longpoll"
    [.connect, .response 0 none, .data 0 [63, 105, 100, 61, 97], .end 0,
     .response 1 (some "application/octet-stream"), .data 1 [1, 2]]
    1 { kind := .poll, aborted := false,
        res := some { contentType := some "application/octet-stream", body := "",
                      chunks := [[1, 2]], ended := false } }
    { contentType := some "application/octet-stream", body := "", chunks := [[1, 2]],
      ended := false }).2 (by decide) rfl rfl rfl (by decide) |>.2

/-- C13 (abort), evaluated where it fails.  A transport is connected and its poll request
`1` is in flight when `abort()` is called.  The request then settles by its `error` event
and its `close` event, in either order: no `error` is emitted, but `close` is emitted twice,
once by the listener that `abort` installed for `error` and once by `onclose`. -/
theorem abort_closes_twice :
    emitted (run samplePlatform "http://localhost:8000/vibe?transport=longpoll"
        Transport.init
        [.connect, .response 0 none, .data 0 [63, 105, 100, 61, 97], .end 0, .abort,
         .reqClose 1, .reqError 1 "socket hang up"]).trace =
      [.open, .close, .close] ∧
    emitted (run samplePlatform "http://localhost:8000/vibe?transport=longpoll"
        Transport.init
        [.connect, .response 0 none, .data 0 [63, 105, 100, 61, 97], .end 0, .abort,
         .reqError 1 "socket hang up", .reqClose 1]).trace =
      [.open, .close, .close] ∧
    emitted (run samplePlatform "http://localhost:8000/vibe?transport=longpoll"
        Transport.init
        [.connect, .response 0 none, .data 0 [63, 105, 100, 61, 97], .end 0, .abort,
         .reqError 1 "socket hang up"]).trace =
      [.open, .close] := by
  decide

end LongPoll

/-- C14 (records of one response).  Of the records handed to the record handler on one
response, the first is not emitted: it sets the transport id to its `id` parameter, and
`open` is emitted from the state in which the id is set.  Every later record is emitted as
it is as `text`, in order; `open` is emitted once. -/
theorem records_open_then_text (queryId : String → Option String) (first : String)
    (others : List String) :
    (∃ r : Response, r.id = queryId first ∧ r.emitted = [] ∧
      onmessage queryId Response.init first = r.notify .open) ∧
    ((first :: others).foldl (onmessage queryId) Response.init).emitted =
      .open :: others.map .text ∧
    ((first :: others).foldl (onmessage queryId) Response.init).id = queryId first ∧
    ((first :: others).foldl (onmessage queryId) Response.init).messages = first :: others := by
  have h1 := onmessage_first queryId Response.init first rfl
  refine ⟨⟨_, rfl, rfl, h1⟩, ?_⟩
  obtain ⟨e1, e2, e3, -⟩ := onmessage_later queryId others
    (onmessage queryId Response.init first) (by rw [h1]; rfl)
  simp only [List.foldl_cons]
  refine ⟨?_, ?_, ?_⟩
  · rw [e1, h1]; rfl
  · rw [e2, h1]; rfl
  · rw [e3, h1]; rfl

/-- C15 (one chunk).  Let `c'` be the chunk without its leading white space.  If `c'` is
empty the `data` listener changes nothing.  Otherwise `buffer + c'` splits on `"\n\n"` into
segments `s1, ..., sm` with `m ≥ 1`; the record handler is called on `s1, ..., s(m-1)` in
order, each without its first 6 characters, and `sm` becomes the buffer. -/
theorem onData_chunk (queryId : String → Option String) (r : Response) (chunk : String) :
    (stripLeft chunk = "" ∧ onData queryId r chunk = r) ∨
    (stripLeft chunk ≠ "" ∧
      ∃ (segments : List String) (last : String),
        split (r.buffer ++ stripLeft chunk) = segments ++ [last] ∧
        onData queryId r chunk =
          { segments.foldl (fun r s => onmessage queryId r ⟨s.data.drop 6⟩) r with
            buffer := last } ∧
        (onData queryId r chunk).messages =
          r.messages ++ segments.map (fun s => ⟨s.data.drop 6⟩) ∧
        (onData queryId r chunk).buffer = last) := by
  by_cases h : stripLeft chunk = ""
  · left
    exact ⟨h, by simp [onData, h]⟩
  · right
    refine ⟨h, (splitNN (r.buffer.data ++ (stripLeft chunk).data)).dropLast.map String.mk,
      ⟨(splitNN (r.buffer.data ++ (stripLeft chunk).data)).getLastD []⟩, ?_, ?_, ?_, ?_⟩
    · have hne := splitNN_ne_nil (r.buffer.data ++ (stripLeft chunk).data)
      have := congrArg (List.map String.mk) (dropLast_append_getLastD _ hne)
      simpa [split, String.data_append] using this.symm
    · rw [onData_eq queryId r chunk h]
      unfold after deliver
      rw [List.foldl_map]
      rfl
    · rw [onData_eq queryId r chunk h]
      unfold after deliver
      show (List.foldl _ r _).messages = _
      rw [foldl_onmessage_messages queryId (fun seg => unwrap ⟨seg⟩), List.map_map]
      rfl
    · rw [onData_eq queryId r chunk h]
      rfl

/-- C16 (chunking does not matter).  When no chunk is empty or begins with a white space
character, feeding the chunks in order from an empty buffer leaves the response exactly as
feeding their concatenation as one chunk does: the same calls of the record handler, the
same buffer.  After every chunk the buffer is free of `"\n\n"`. -/
theorem feed_chunks (queryId : String → Option String) (chunks : List String)
    (h : ∀ c ∈ chunks, c ≠ "" ∧ ∀ x ∈ c.data.head?, isSpace x = false) :
    feed queryId Response.init chunks =
        onData queryId Response.init (String.join chunks) ∧
    (feed queryId Response.init chunks).messages =
        (onData queryId Response.init (String.join chunks)).messages ∧
    (feed queryId Response.init chunks).buffer =
        (onData queryId Response.init (String.join chunks)).buffer ∧
    ∀ k, ¬ ['\n', '\n'] <:+: (feed queryId Response.init (chunks.take k)).buffer.data := by
  have hwhole : feed queryId Response.init chunks =
      onData queryId Response.init (String.join chunks) := by
    rw [feed_init queryId chunks h]
    cases chunks with
    | nil => rfl
    | cons c cs =>
      obtain ⟨hne, hhead⟩ := h c (List.mem_cons_self _ _)
      have hdata : (String.join (c :: cs)).data = ((c :: cs).map String.data).flatten := by
        have := join_data (c :: cs) ""
        simpa [String.join] using this
      obtain ⟨x, xs, hc⟩ : ∃ x xs, c.data = x :: xs := by
        cases hd : c.data with
        | nil => exact absurd (String.ext hd) hne
        | cons x xs => exact ⟨x, xs, rfl⟩
      have hjhead : ∀ y ∈ (String.join (c :: cs)).data.head?, isSpace y = false := by
        intro y hy
        rw [hdata] at hy
        simp [hc] at hy
        subst hy
        exact hhead x (by rw [hc]; rfl)
      have hjne : String.join (c :: cs) ≠ "" := by
        intro e
        have := congrArg String.data e
        rw [hdata] at this
        simp [hc] at this
      have hstrip := stripLeft_id _ hjhead
      rw [onData_eq queryId _ _ (by rw [hstrip]; exact hjne), hstrip, hdata]
      rfl
  refine ⟨hwhole, by rw [hwhole], by rw [hwhole], ?_⟩
  intro k
  rw [feed_init queryId (chunks.take k) (fun c hc => h c (List.mem_of_mem_take hc)),
    after_buffer]
  exact lastSegment_noSeparator _

/-- Witness of C16: the text `data: A\n\ndata: B\n\n` cut inside its second record. -/
theorem feed_chunks_witness :
    (∀ c ∈ ["data: A\n\nda", "ta: B\n\n"],
      c ≠ "" ∧ ∀ x ∈ c.data.head?, isSpace x = false) ∧
    feed (fun _ => none) Response.init ["data: A\n\nda", "ta: B\n\n"] =
      onData (fun _ => none) Response.init (String.join ["data: A\n\nda", "ta: B\n\n"]) ∧
    (feed (fun _ => none) Response.init ["data: A\n\nda", "ta: B\n\n"]).messages = ["A", "B"] :=
  ⟨by decide,
   (feed_chunks (fun _ => none) ["data: A\n\nda", "ta: B\n\n"] (by decide)).1,
   by decide⟩

end Vibe
